import Mathlib

/-!
Verification of the apartment-scraper core (`ScraperService`).

The development shallowly embeds the scraping pipeline: the JavaScript string
and regex operations the scraper relies on are modelled as executable functions
on `List Char`, browser interactions are modelled as explicit environments
(oracles) describing what each Playwright call would return, and the scraper's
methods become pure functions of those environments.  Machine `Date` values are
modelled by a year/month/day record; JS numbers that may be `NaN` are modelled
by `Option Nat`.
-/

namespace AptCrawler

/-! ## JavaScript character classes and string primitives -/

/-- JS regex `\s` restricted to the ASCII whitespace characters. -/
def jsSpace (c : Char) : Bool :=
  c = ' ' || c = '\t' || c = '\n' || c = '\r' || c = '\x0b' || c = '\x0c'

/-- JS regex `\w`: letters, digits and underscore. -/
def isWordCh (c : Char) : Bool := c.isAlphanum || c = '_'

/-- Consume a literal from the front of a character list; `none` when the list
does not start with the literal, otherwise the remainder. -/
def dropLit : List Char → List Char → Option (List Char)
  | [], l => some l
  | _ :: _, [] => none
  | p :: ps, c :: cs => if c = p then dropLit ps cs else none

/-- Case-insensitive variant of `dropLit`; the literal is given lower-case. -/
def dropLitCI : List Char → List Char → Option (List Char)
  | [], l => some l
  | _ :: _, [] => none
  | p :: ps, c :: cs => if c.toLower = p then dropLitCI ps cs else none

/-- JS `String.prototype.includes`: contiguous substring test. -/
def containsSub (needle : List Char) : List Char → Bool
  | [] => needle.isEmpty
  | c :: cs => (dropLit needle (c :: cs)).isSome || containsSub needle cs

/-- `s.includes(pat)` on Lean strings. -/
def strIncludes (s pat : String) : Bool := containsSub pat.data s.data

/-- JS `String.prototype.toLowerCase` (ASCII). -/
def lowerStr (s : String) : String := ⟨s.data.map Char.toLower⟩

/-- JS `String.prototype.trim`: strip whitespace from both ends. -/
def trimChars (l : List Char) : List Char :=
  ((l.dropWhile jsSpace).reverse.dropWhile jsSpace).reverse

/-- JS `String.prototype.replace` with a plain-string pattern: replace the
first occurrence of `pat` by `repl` (identity when `pat` does not occur). -/
def replaceFirstL (pat repl : List Char) : List Char → List Char
  | [] => if pat.isEmpty then repl else []
  | c :: cs =>
    match dropLit pat (c :: cs) with
    | some rest => repl ++ rest
    | none => c :: replaceFirstL pat repl cs

/-! ## Decimal numbers as strings -/

/-- One decimal digit character. -/
def digitCh : Nat → Char
  | 0 => '0' | 1 => '1' | 2 => '2' | 3 => '3' | 4 => '4'
  | 5 => '5' | 6 => '6' | 7 => '7' | 8 => '8' | _ => '9'

/-- Fuelled producer of the decimal digits of a natural number. -/
def decDigitsAux : Nat → Nat → List Char
  | 0, _ => []
  | fuel + 1, n =>
    if n < 10 then [digitCh n]
    else decDigitsAux fuel (n / 10) ++ [digitCh (n % 10)]

/-- Decimal digits of a natural number: models the JS number-to-string
conversion performed by template literals for integral values. -/
def decDigits (n : Nat) : List Char := decDigitsAux (n + 1) n

/-- Decimal rendering of a natural number as a Lean string. -/
def natStr (n : Nat) : String := ⟨decDigits n⟩

/-- Numeric value of a digit character. -/
def digitVal (c : Char) : Nat := c.toNat - 48

/-- Value of a list of decimal digit characters (models JS `parseInt` applied
to an all-digit string). -/
def foldDigits (l : List Char) : Nat := l.foldl (fun a c => a * 10 + digitVal c) 0

/-! ## Dash-separated decomposition (for the deduplication key) -/

/-- Split a character list at every `'-'`, keeping empty segments, exactly like
splitting a string on a one-character separator. -/
def splitDash : List Char → List (List Char)
  | [] => [[]]
  | c :: cs =>
    if c = '-' then [] :: splitDash cs
    else
      match splitDash cs with
      | [] => [[c]]
      | p :: ps => (c :: p) :: ps

/-- Inverse of `splitDash`: interleave `'-'` between the segments. -/
def joinDash : List (List Char) → List Char
  | [] => []
  | [p] => p
  | p :: q :: ps => p ++ '-' :: joinDash (q :: ps)

/-- The composite deduplication key: `floorplanName`, `unitNumber`, rent text
and availability text joined by `-` (the template literal
`fp-un-rent-avail` used both by the extraction-time key and, with rendered
values, by the final collation key). -/
def joinKey (fp un rent avail : String) : String :=
  fp ++ "-" ++ un ++ "-" ++ rent ++ "-" ++ avail

/-- A character list without any dash. -/
abbrev NoDashL (l : List Char) : Prop := '-' ∉ l

/-- A character list with exactly one dash: letters part, dash, digits part
(the shape of every unit-number token the extractor produces). -/
def OneDashL (l : List Char) : Prop :=
  ∃ L D, l = L ++ '-' :: D ∧ '-' ∉ L ∧ '-' ∉ D

/-! ## Regex matchers

Each matcher recognises one of the scraper's regex patterns at the head of a
character list and returns the matched token together with the remainder.
Greedy runs (`[A-Z]+`, `\d+`, `\s+`, ...) are taken maximally; in every pattern
below the character class of a run is disjoint from the character required
right after it, so the maximal run is exactly what the backtracking regex
engine commits to. -/

/-- Match `[A-Z]{minL,}-\d+` at the head. -/
def matchUpperDash (minL : Nat) (l : List Char) : Option (List Char × List Char) :=
  let ls := l.takeWhile Char.isUpper
  if minL ≤ ls.length then
    match l.dropWhile Char.isUpper with
    | '-' :: r2 =>
      let ds := r2.takeWhile Char.isDigit
      if ds.isEmpty then none
      else some (ls ++ '-' :: ds, r2.dropWhile Char.isDigit)
    | _ => none
  else none

/-- Match a literal followed by `\d+` at the head (the directional
alternatives `WEST-\d+`, `EAST-\d+`, ...). -/
def matchLitDigits (lit : List Char) (l : List Char) : Option (List Char × List Char) :=
  match dropLit lit l with
  | none => none
  | some r =>
    let ds := r.takeWhile Char.isDigit
    if ds.isEmpty then none else some (lit ++ ds, r.dropWhile Char.isDigit)

/-- Body of the container unit pattern
`[A-Z]{3,}-\d+|WEST-\d+|EAST-\d+|NORTH-\d+|SOUTH-\d+` (ordered alternation). -/
def unitBodyA (l : List Char) : Option (List Char × List Char) :=
  match matchUpperDash 3 l with
  | some p => some p
  | none =>
    match matchLitDigits "WEST-".data l with
    | some p => some p
    | none =>
      match matchLitDigits "EAST-".data l with
      | some p => some p
      | none =>
        match matchLitDigits "NORTH-".data l with
        | some p => some p
        | none => matchLitDigits "SOUTH-".data l

/-- Body of the looser unit pattern `[A-Z]+-\d+`. -/
def unitBodyB (l : List Char) : Option (List Char × List Char) :=
  matchUpperDash 1 l

/-- `#?` before a body: the optional `#` is tried greedily first, exactly as
the regex engine does. -/
def matchUnitAt (body : List Char → Option (List Char × List Char)) (l : List Char) :
    Option (List Char × List Char) :=
  match l with
  | '#' :: rest =>
    (match body rest with
     | some (m, r) => some ('#' :: m, r)
     | none => body l)
  | _ => body l

/-- Match the price pattern `\$[\d,]+` at the head. -/
def matchPriceAt (l : List Char) : Option (List Char × List Char) :=
  match l with
  | '$' :: rest =>
    let run := rest.takeWhile fun c => c.isDigit || c = ','
    if run.isEmpty then none
    else some ('$' :: run, rest.dropWhile fun c => c.isDigit || c = ',')
  | _ => none

/-- Match `Available\s+[A-Za-z]+\s+\d+` at the head; returns the full match,
the capture group `[A-Za-z]+\s+\d+`, and the remainder. -/
def matchAvailDateAt (l : List Char) : Option (List Char × List Char × List Char) :=
  match dropLit "Available".data l with
  | none => none
  | some r1 =>
    let sp1 := r1.takeWhile jsSpace
    if sp1.isEmpty then none
    else
      let r2 := r1.dropWhile jsSpace
      let ws := r2.takeWhile Char.isAlpha
      if ws.isEmpty then none
      else
        let r3 := r2.dropWhile Char.isAlpha
        let sp2 := r3.takeWhile jsSpace
        if sp2.isEmpty then none
        else
          let r4 := r3.dropWhile jsSpace
          let ds := r4.takeWhile Char.isDigit
          if ds.isEmpty then none
          else
            let grp := ws ++ sp2 ++ ds
            some ("Available".data ++ sp1 ++ grp, grp, r4.dropWhile Char.isDigit)

/-- Match `\d+\/\d+` at the head. -/
def matchSlashAt (l : List Char) : Option (List Char × List Char) :=
  let d1 := l.takeWhile Char.isDigit
  if d1.isEmpty then none
  else
    match l.dropWhile Char.isDigit with
    | '/' :: r2 =>
      let d2 := r2.takeWhile Char.isDigit
      if d2.isEmpty then none else some (d1 ++ '/' :: d2, r2.dropWhile Char.isDigit)
    | _ => none

/-- The date pattern `Available\s+([A-Za-z]+\s+\d+)|(\d+\/\d+)` at the head
(ordered alternation), returning the full match. -/
def matchDateAt (l : List Char) : Option (List Char × List Char) :=
  match matchAvailDateAt l with
  | some (full, _, r) => some (full, r)
  | none => matchSlashAt l

/-- Fuelled global regex scan (`text.match(re)` with the `g` flag): repeatedly
take the leftmost match and resume after its end.  Every matcher used here
consumes at least one character per match, so fuelling by the input length is
exact. -/
def scanF (m : List Char → Option (List Char × List Char)) : Nat → List Char → List (List Char)
  | 0, _ => []
  | _, [] => []
  | fuel + 1, c :: cs =>
    match m (c :: cs) with
    | some (tok, r) => tok :: scanF m fuel r
    | none => scanF m fuel cs

/-- All matches of a pattern in a text, left to right. -/
def scanAll (m : List Char → Option (List Char × List Char)) (l : List Char) : List (List Char) :=
  scanF m l.length l

/-- First match of an at-position recogniser anywhere in the text (non-global
`text.match(re)`). -/
def firstSome {β : Type} (f : List Char → Option β) : List Char → Option β
  | [] => none
  | c :: cs =>
    match f (c :: cs) with
    | some b => some b
    | none => firstSome f cs

/-! ## Dates

JS `Date` objects are modelled by their calendar components; the month is
stored 1-based (9 = September).  `new Date(string)` is modelled for the
`"Month Day, Year"` shape that the scraper's template literal produces (the
engine's other implementation-defined string formats are irrelevant here and
parse as invalid); `new Date(year, monthIndex, day)` is modelled for in-range
arguments, without calendar rollover, which the scraper never relies on. -/

structure JSDate where
  year : Nat
  month : Nat
  day : Nat
deriving DecidableEq, Repr

/-- Month names recognised by the engine's date-string parser. -/
def monthNames : List (List Char × Nat) :=
  [("january".data, 1), ("february".data, 2), ("march".data, 3),
   ("april".data, 4), ("may".data, 5), ("june".data, 6),
   ("july".data, 7), ("august".data, 8), ("september".data, 9),
   ("october".data, 10), ("november".data, 11), ("december".data, 12)]

/-- Month from a name token: any case-insensitive name fragment of length at
least three that starts a month name ("sep", "sept", "september", ...). -/
def monthFromName (w : List Char) : Option Nat :=
  let lw := w.map Char.toLower
  if 3 ≤ lw.length then
    (monthNames.find? fun p => (dropLit lw p.1).isSome).map (·.2)
  else none

/-- Gregorian leap years. -/
def isLeap (y : Nat) : Bool := (y % 4 = 0 && y % 100 ≠ 0) || y % 400 = 0

/-- Days in a (1-based) month. -/
def daysInMonth (m y : Nat) : Nat :=
  if m = 2 then (if isLeap y then 29 else 28)
  else if m = 4 ∨ m = 6 ∨ m = 9 ∨ m = 11 then 30 else 31

/-- Model of `new Date(string)` for the `"Month Day, Year"` shape: month name
token, space, day digits, comma, space, year digits; out-of-range days give an
invalid date (`none`). -/
def jsParseDateString (l : List Char) : Option JSDate :=
  let w1 := l.takeWhile fun c => c ≠ ' '
  match l.dropWhile fun c => c ≠ ' ' with
  | [] => none
  | c1 :: r2 =>
    if c1 = ' ' then
      let w2 := r2.takeWhile fun c => c ≠ ','
      match r2.dropWhile fun c => c ≠ ',' with
      | c2 :: c3 :: r4 =>
        if c2 = ',' ∧ c3 = ' ' then
          let yd := r4.takeWhile Char.isDigit
          if (r4.dropWhile Char.isDigit).isEmpty ∧ ¬ yd.isEmpty ∧
              w2.all Char.isDigit ∧ ¬ w2.isEmpty then
            match monthFromName w1 with
            | some m =>
              let d := foldDigits w2
              let y := foldDigits yd
              if 1 ≤ d ∧ d ≤ daysInMonth m y then some ⟨y, m, d⟩ else none
            | none => none
          else none
        else none
      | _ => none
    else none

/-- The month word and day digits of `/available\s+(\w+)\s+(\d+)/i` at the
head of the text. -/
def availRegexAt (l : List Char) : Option (List Char × List Char) :=
  match dropLitCI "available".data l with
  | none => none
  | some r1 =>
    if (r1.takeWhile jsSpace).isEmpty then none
    else
      let r2 := r1.dropWhile jsSpace
      let mw := r2.takeWhile isWordCh
      if mw.isEmpty then none
      else
        let r3 := r2.dropWhile isWordCh
        if (r3.takeWhile jsSpace).isEmpty then none
        else
          let r4 := r3.dropWhile jsSpace
          let ds := r4.takeWhile Char.isDigit
          if ds.isEmpty then none else some (mw, ds)

/-- The two digit groups of `/(\d+)\/(\d+)/` at the head of the text. -/
def slashRegexAt (l : List Char) : Option (List Char × List Char) :=
  let d1 := l.takeWhile Char.isDigit
  if d1.isEmpty then none
  else
    match l.dropWhile Char.isDigit with
    | '/' :: r2 =>
      let d2 := r2.takeWhile Char.isDigit
      if d2.isEmpty then none else some (d1, d2)
    | _ => none

/-- Shared tail of `parseAvailabilityDate`: the `"9/28"` branch
(`new Date(currentYear, month - 1, day)`, which is never invalid) and the
final direct `new Date(dateString)` attempt. -/
def parseDateTail (currentYear : Nat) (dateString : String) : Option JSDate :=
  match firstSome slashRegexAt dateString.data with
  | some (m, d) => some ⟨currentYear, foldDigits m, foldDigits d⟩
  | none => jsParseDateString dateString.data

/-- `parseAvailabilityDate`: parse `"Available Sep 28"` via the constructed
string `"Sep 28, <currentYear>"`, else `"9/28"` via the component constructor,
else try the string directly; every failure yields `none` (`null`). -/
def parseAvailabilityDate (currentYear : Nat) (dateString : String) : Option JSDate :=
  if strIncludes (lowerStr dateString) "available" then
    match firstSome availRegexAt dateString.data with
    | some (mw, ds) =>
      jsParseDateString (mw ++ ' ' :: (ds ++ ',' :: ' ' :: decDigits currentYear))
    | none => parseDateTail currentYear dateString
  else parseDateTail currentYear dateString

/-- Model of `Date.prototype.toLocaleDateString()` (en-US `M/D/YYYY`). -/
def toLocaleDateString (d : JSDate) : String :=
  natStr d.month ++ "/" ++ natStr d.day ++ "/" ++ natStr d.year

/-! ## Rent parsing and bedroom counts -/

/-- Group 1 of `/\$?([\d,]+)/` at the head of the text: the optional `$` is
tried first; without it the run must start immediately. -/
def rentMatchAt (l : List Char) : Option (List Char) :=
  match l with
  | '$' :: r =>
    let run := r.takeWhile fun c => c.isDigit || c = ','
    if run.isEmpty then none else some run
  | _ =>
    let run := l.takeWhile fun c => c.isDigit || c = ','
    if run.isEmpty then none else some run

/-- `parseRent`: strip commas from the `[\d,]+` group and `parseInt` it;
no match yields `0`.  `none` models `NaN` (`parseInt` of an empty string,
possible when the group is all commas). -/
def parseRent (s : String) : Option Nat :=
  match firstSome rentMatchAt s.data with
  | none => some 0
  | some grp =>
    let stripped := grp.filter fun c => c ≠ ','
    if stripped.isEmpty then none else some (foldDigits stripped)

/-- JS number rendering for the final dedup key (`${unit.rent}`). -/
def renderNum : Option Nat → String
  | none => "NaN"
  | some n => natStr n

/-- The digits and `bed` suffix of `/(\d+)\s*bed/i` at the head of the text. -/
def bedAt (l : List Char) : Option Nat :=
  let ds := l.takeWhile Char.isDigit
  if ds.isEmpty then none
  else
    let r := (l.dropWhile Char.isDigit).dropWhile jsSpace
    match dropLitCI "bed".data r with
    | some _ => some (foldDigits ds)
    | none => none

/-- `extractBedroomCount`: keyword classification on the lower-cased title,
then the numeric regex, defaulting to `0`. -/
def extractBedroomCount (title : String) : Nat :=
  let lower := lowerStr title
  if strIncludes lower "studio" then 0
  else if strIncludes lower "1 bed" || strIncludes lower "one bed" then 1
  else if strIncludes lower "2 bed" || strIncludes lower "two bed" then 2
  else if strIncludes lower "3 bed" || strIncludes lower "three bed" then 3
  else
    match firstSome bedAt title.data with
    | some n => n
    | none => 0

/-! ## Data model -/

/-- Raw unit record (`ScrapedUnit`) produced by the extractor. -/
structure ScrapedUnit where
  unitNumber : String
  rent : String
  availabilityDate : String
  floorplanName : String
  floorplanUrl : String
  bedroomCount : Nat
deriving DecidableEq, Repr

/-- Normalized apartment (`Apartment`); `rent` is a JS number (`none` = NaN),
`availabilityDate` is `Date | null`. -/
structure Apartment where
  unitNumber : String
  floorplanName : String
  bedroomCount : Nat
  rent : Option Nat
  availabilityDate : Option JSDate
deriving DecidableEq, Repr

/-! ## Unit extraction from a container text -/

/-- Emission loop over the unit matches of one container (`for j ...`):
positional pairing with the price and date match arrays, falling back to index
0 (and to `'Available Now'` when there are no date matches), the run-scoped
dedup-key check, and the push of the trimmed record. -/
def containerEmit (fp url : String) (bc : Nat) (priceMs dateMs : List (List Char)) :
    Nat → List (List Char) → List String → List ScrapedUnit → Bool →
    List ScrapedUnit × List String × Bool
  | _, [], seen, acc, found => (acc, seen, found)
  | j, um :: rest, seen, acc, found =>
    let unitNumber := replaceFirstL ['#'] [] um
    let rent := priceMs.getD j (priceMs.headD [])
    let avail := if dateMs.isEmpty then "Available Now".data
                 else dateMs.getD j (dateMs.headD [])
    let key := joinKey fp ⟨unitNumber⟩ ⟨rent⟩ ⟨avail⟩
    if key ∈ seen then
      containerEmit fp url bc priceMs dateMs (j + 1) rest seen acc found
    else
      let u : ScrapedUnit :=
        { unitNumber := ⟨trimChars unitNumber⟩
          rent := ⟨trimChars rent⟩
          availabilityDate := ⟨trimChars (replaceFirstL "Available ".data [] avail)⟩
          floorplanName := fp
          floorplanUrl := url
          bedroomCount := bc }
      containerEmit fp url bc priceMs dateMs (j + 1) rest (key :: seen) (acc ++ [u]) true

/-- Processing of one container's text: the `'#'`/`'$'` guard, the two-tier
unit pattern (`match(reA) || match(reB)`), the price and date scans, and the
emission loop when both unit and price matches exist. -/
def processContainerText (fp url : String) (bc : Nat) (t : String)
    (seen : List String) (acc : List ScrapedUnit) (found : Bool) :
    List ScrapedUnit × List String × Bool :=
  if t ≠ "" ∧ strIncludes t "#" ∧ strIncludes t "$" then
    let mA := scanAll (matchUnitAt unitBodyA) t.data
    let unitMs := if mA.isEmpty then scanAll (matchUnitAt unitBodyB) t.data else mA
    let priceMs := scanAll matchPriceAt t.data
    let dateMs := scanAll matchDateAt t.data
    if ¬ unitMs.isEmpty ∧ ¬ priceMs.isEmpty then
      containerEmit fp url bc priceMs dateMs 0 unitMs seen acc found
    else (acc, seen, found)
  else (acc, seen, found)

/-! ## The floorplan detail page -/

/-- What a floorplan detail page presents to the scraper: the result of each
Playwright call (`Except.error` models a thrown error).  `containerTexts`
gives, per candidate selector, the `textContent` results of the matched
containers (`Option String` models `string | null`). -/
structure DetailEnv where
  gotoRes : Except String Unit
  buttonCount : Except String Nat
  clickRes : Except String Unit
  containerTexts : String → List (Except String (Option String))
  bodyText : Except String (Option String)

/-- The ordered candidate container selectors (`possibleContainers`). -/
def possibleContainers : List String :=
  [".availability-dropdown", ".unit-details", "[class*=\"unit\"]",
   "[class*=\"availability\"]", ".dropdown-content", ".unit-info"]

/-- Loop over the containers matched by one selector; a thrown `textContent`
aborts with the units accumulated so far, a `null` text or one failing the
`'#'`/`'$'` guard is skipped. -/
def textsLoop (fp url : String) (bc : Nat) :
    List (Except String (Option String)) → List String → List ScrapedUnit → Bool →
    List ScrapedUnit × List String × Bool × Option String
  | [], seen, acc, found => (acc, seen, found, none)
  | .error e :: _, seen, acc, found => (acc, seen, found, some e)
  | .ok none :: rest, seen, acc, found => textsLoop fp url bc rest seen acc found
  | .ok (some t) :: rest, seen, acc, found =>
    match processContainerText fp url bc t seen acc found with
    | (acc', seen', found') => textsLoop fp url bc rest seen' acc' found'

/-- Loop over the candidate selectors. -/
def containersLoop (env : DetailEnv) (fp url : String) (bc : Nat) :
    List String → List String → List ScrapedUnit → Bool →
    List ScrapedUnit × List String × Bool × Option String
  | [], seen, acc, found => (acc, seen, found, none)
  | sel :: rest, seen, acc, found =>
    match textsLoop fp url bc (env.containerTexts sel) seen acc found with
    | (acc', seen', found', some e) => (acc', seen', found', some e)
    | (acc', seen', found', none) => containersLoop env fp url bc rest seen' acc' found'

/-! ## Whole-page-text fallback -/

/-- JS regex `.` (without the `s` flag): any character except a line
terminator. -/
def dotCh (c : Char) : Bool :=
  !(c = '\n' || c = '\r' || c.toNat = 0x2028 || c.toNat = 0x2029)

/-- Resolve a lazy gap `.*?` followed by a token: the shortest
line-terminator-free gap after which the token matches.  Returns
(gap, token, remainder). -/
def findTok (m : List Char → Option (List Char × List Char)) :
    List Char → Option (List Char × List Char × List Char)
  | [] => none
  | c :: cs =>
    match m (c :: cs) with
    | some (tok, r) => some ([], tok, r)
    | none =>
      if dotCh c then
        match findTok m cs with
        | some (gap, tok, r) => some (c :: gap, tok, r)
        | none => none
      else none

/-- One match of the fallback pattern
`(#?WEST-\d+).*?\$[\d,]+.*?(?:Available\s+[A-Za-z]+\s+\d+|\d+\/\d+)` at the
head: unit token, then the lazily-shortest gaps to a price token and to a date
token.  Returns (full match, unit token, remainder).  The lazy gaps are
resolved forward-only, which is exact whenever the first price candidate in a
line is followed by a date, as on this site's pages. -/
def matchWestFullAt (l : List Char) : Option (List Char × List Char × List Char) :=
  match matchUnitAt (matchLitDigits "WEST-".data) l with
  | none => none
  | some (utok, r1) =>
    match findTok matchPriceAt r1 with
    | none => none
    | some (g1, ptok, r2) =>
      match findTok matchDateAt r2 with
      | none => none
      | some (g2, dtok, r3) => some (utok ++ g1 ++ ptok ++ g2 ++ dtok, utok, r3)

/-- Fuelled `exec` loop of the global fallback pattern: (full match, unit
token) pairs, left to right. -/
def scanWestF : Nat → List Char → List (List Char × List Char)
  | 0, _ => []
  | _, [] => []
  | fuel + 1, c :: cs =>
    match matchWestFullAt (c :: cs) with
    | some (full, utok, r) => (full, utok) :: scanWestF fuel r
    | none => scanWestF fuel cs

/-- First price token inside a full match (`fullMatch.match(/\$[\d,]+/)`). -/
def firstPrice (l : List Char) : Option (List Char) :=
  firstSome (fun l => (matchPriceAt l).map (·.1)) l

/-- First capture group of `/Available\s+([A-Za-z]+\s+\d+)/` inside a full
match. -/
def firstAvailGroup (l : List Char) : Option (List Char) :=
  firstSome (fun l => (matchAvailDateAt l).map (·.2.1)) l

/-- First match of `/(\d+\/\d+)/` inside a full match. -/
def firstSlash (l : List Char) : Option (List Char) :=
  firstSome (fun l => (matchSlashAt l).map (·.1)) l

/-- The availability text of one fallback match:
`dateMatch?.[1] || dateMatch?.[0] || 'Available Now'` where `dateMatch` is the
`Available`-pattern re-match or else the slash re-match inside the full
match. -/
def fallbackDateVal (full : List Char) : List Char :=
  match firstAvailGroup full with
  | some g => g
  | none =>
    match firstSlash full with
    | some s2 => s2
    | none => "Available Now".data

/-- Emission loop of the fallback: re-match price and date inside each full
match, build the dedup key, and push the record when the key is new. -/
def fallbackEmit (fp url : String) (bc : Nat) :
    List (List Char × List Char) → List String → List ScrapedUnit → Bool →
    List ScrapedUnit × List String × Bool
  | [], seen, acc, found => (acc, seen, found)
  | (full, utok) :: rest, seen, acc, found =>
    let unitNumber := replaceFirstL ['#'] [] utok
    match firstPrice full with
    | none => fallbackEmit fp url bc rest seen acc found
    | some ptok =>
      let dateVal : List Char := fallbackDateVal full
      let key := joinKey fp ⟨unitNumber⟩ ⟨ptok⟩ ⟨dateVal⟩
      if key ∈ seen then fallbackEmit fp url bc rest seen acc found
      else
        let u : ScrapedUnit :=
          { unitNumber := ⟨trimChars unitNumber⟩
            rent := ⟨trimChars ptok⟩
            availabilityDate := ⟨dateVal⟩
            floorplanName := fp
            floorplanUrl := url
            bedroomCount := bc }
        fallbackEmit fp url bc rest (key :: seen) (acc ++ [u]) true

/-- The whole-page-text fallback: it only runs when the body text contains the
literal `'WEST-641'` (the guard `pageText.includes('WEST-641')` in the
source). -/
def bodyFallback (fp url : String) (bc : Nat) (txt : String)
    (seen : List String) (acc : List ScrapedUnit) (found : Bool) :
    List ScrapedUnit × List String × Bool :=
  if strIncludes txt "WEST-641" then
    fallbackEmit fp url bc (scanWestF txt.data.length txt.data) seen acc found
  else (acc, seen, found)

/-- `scrapeFloorplanDetails` up to but excluding its `try/catch`: navigation,
the availability-button probe (click failures are swallowed by the inner
`try`), the container loop, and the fallback.  The third component is the
error that reaches the outer `catch`, if any; units and seen-set reflect all
work done before the error. -/
def detailsCore (env : DetailEnv) (fp url : String) (bc : Nat) (seen : List String) :
    List ScrapedUnit × List String × Option String :=
  match env.gotoRes with
  | .error e => ([], seen, some e)
  | .ok _ =>
    match env.buttonCount with
    | .error e => ([], seen, some e)
    | .ok _ =>
      match containersLoop env fp url bc possibleContainers seen [] false with
      | (acc, seen', _, some e) => (acc, seen', some e)
      | (acc, seen', found, none) =>
        if found then (acc, seen', none)
        else
          match env.bodyText with
          | .error e => (acc, seen', some e)
          | .ok none => (acc, seen', none)
          | .ok (some txt) =>
            match bodyFallback fp url bc txt seen' acc false with
            | (acc2, seen2, _) => (acc2, seen2, none)

/-- `scrapeFloorplanDetails`: the outer `catch` logs the error and the
function returns the accumulated units (`return units` after the
`try/catch`). -/
def scrapeFloorplanDetails (env : DetailEnv) (fp url : String) (bc : Nat)
    (seen : List String) : List ScrapedUnit × List String :=
  match detailsCore env fp url bc seen with
  | (units, seen', _) => (units, seen')

/-! ## Floorplan discovery (phase 1) -/

deriving instance DecidableEq for Except

/-- What one listing card presents to the scraper: whether scrolling it into
view succeeds, and the `textContent` results of its title element and of the
card itself. -/
structure Card where
  scrollOk : Bool
  titleRes : Except Unit (Option String)
  textRes : Except Unit (Option String)
deriving DecidableEq, Repr

/-- A qualifying floorplan collected in phase 1. -/
structure Floorplan where
  title : String
  url : String
  bedroomCount : Nat
deriving DecidableEq, Repr

/-- `replace(/^the\s+/, '')` on the lower-cased title. -/
def dropThe (l : List Char) : List Char :=
  match dropLit "the".data l with
  | some r => if (r.takeWhile jsSpace).isEmpty then l else r.dropWhile jsSpace
  | none => l

/-- Fuelled `replace(/\s+/g, '-')`: every maximal whitespace run becomes one
hyphen. -/
def collapseSpacesF : Nat → List Char → List Char
  | 0, _ => []
  | _, [] => []
  | fuel + 1, c :: cs =>
    if jsSpace c then '-' :: collapseSpacesF fuel (cs.dropWhile jsSpace)
    else c :: collapseSpacesF fuel cs

/-- The URL slug derived from a title: lower-case, strip a leading
`the&nbsp;`, whitespace runs to hyphens, keep only `[a-z0-9-]`. -/
def buildSlug (title : String) : String :=
  let lower := (lowerStr title).data
  let noThe := dropThe lower
  let hyph := collapseSpacesF noThe.length noThe
  ⟨hyph.filter fun c => c.isLower || c.isDigit || c = '-'⟩

/-- Phase-1 processing of one card: scroll, read the title, classify the
bedroom count (rejecting more than one bedroom), require the
`'Starting at $'` price marker in the card text, and build the detail URL.
Any per-card error (`Except.error`) or missing text skips the card. -/
def qualifyCard (card : Card) : Option Floorplan :=
  if ¬ card.scrollOk then none
  else
    match card.titleRes with
    | .error _ => none
    | .ok none => none
    | .ok (some title) =>
      if title = "" then none
      else
        let bc := extractBedroomCount title
        if bc > 1 then none
        else
          match card.textRes with
          | .error _ => none
          | .ok none => none
          | .ok (some txt) =>
            if txt ≠ "" ∧ strIncludes txt "Starting at $" then
              some { title := ⟨trimChars title.data⟩
                     url := "https://flatsatpcm.com/floorplans/the-" ++ buildSlug title ++ "/"
                     bedroomCount := bc }
            else none

/-- Phase 1 over all cards (the Discoverer's output). -/
def discoverFloorplans (cards : List Card) : List Floorplan :=
  cards.filterMap qualifyCard

/-! ## Navigation strategies -/

/-- One navigation strategy: completion condition, timeout ceiling, log
name. -/
structure NavStrategy where
  waitUntil : String
  timeout : Nat
  name : String
deriving DecidableEq, Repr

/-- The scraper's ordered strategy list. -/
def strategies : List NavStrategy :=
  [{ waitUntil := "domcontentloaded", timeout := 45000, name := "DOM loaded" },
   { waitUntil := "load", timeout := 60000, name := "full load" },
   { waitUntil := "networkidle", timeout := 30000, name := "network idle" }]

/-- The navigation loop: try each strategy in order; on success break; on
failure of the last strategy re-throw its error; an empty strategy list throws
the `navigationSuccess` guard's error.  Returns the list of attempted
strategies in order and the outcome. -/
def navLoop {α : Type} (behave : α → Except String Unit) :
    List α → List α × Except String Unit
  | [] => ([], .error "All navigation strategies failed")
  | [s] =>
    match behave s with
    | .ok _ => ([s], .ok ())
    | .error e => ([s], .error e)
  | s :: s2 :: rest =>
    match behave s with
    | .ok _ => ([s], .ok ())
    | .error _ =>
      match navLoop behave (s2 :: rest) with
      | (t, r) => (s :: t, r)

/-! ## Normalization and final deduplication -/

/-- Normalization of one raw record (`processScrapedUnits`' `map`). -/
def processOne (currentYear : Nat) (u : ScrapedUnit) : Apartment :=
  { unitNumber := u.unitNumber
    floorplanName := u.floorplanName
    bedroomCount := u.bedroomCount
    rent := parseRent u.rent
    availabilityDate := parseAvailabilityDate currentYear u.availabilityDate }

/-- Final-dedup key of a normalized apartment:
`fp-un-rent-(toLocaleDateString() || 'No Date')`. -/
def apartmentKey (a : Apartment) : String :=
  joinKey a.floorplanName a.unitNumber (renderNum a.rent)
    (match a.availabilityDate with
     | some d => toLocaleDateString d
     | none => "No Date")

/-- The final deduplication pass over the normalized records. -/
def finalDedup (seen : List String) : List Apartment → List Apartment
  | [] => []
  | a :: rest =>
    if apartmentKey a ∈ seen then finalDedup seen rest
    else a :: finalDedup (apartmentKey a :: seen) rest

/-- `processScrapedUnits`: normalize every raw record, then deduplicate on the
final key. -/
def processScrapedUnits (currentYear : Nat) (scraped : List ScrapedUnit) : List Apartment :=
  finalDedup [] (scraped.map (processOne currentYear))

/-- Count of output apartments carrying a given final key. -/
def countKey (l : List Apartment) (k : String) : Nat :=
  (l.filter fun a => apartmentKey a == k).length

/-! ## scrapeApartments and run -/

/-- What the whole site presents to one `scrapeApartments` call: the outcome
of each navigation strategy on the index page, the listing cards, and the
detail-page environment behind each URL. -/
structure ScrapeEnv where
  navRes : NavStrategy → Except String Unit
  cards : List Card
  detail : String → DetailEnv

/-- Phase 2: visit each qualifying floorplan in order, sharing the run-scoped
seen-set; returns the accumulated units, the final seen-set and the visited
URLs in order.  (`scrapeFloorplanDetails` never throws, so the surrounding
`try/catch` never skips a floorplan.) -/
def phase2 (env : ScrapeEnv) :
    List Floorplan → List String → List ScrapedUnit →
    List ScrapedUnit × List String × List String
  | [], seen, acc => (acc, seen, [])
  | f :: rest, seen, acc =>
    match scrapeFloorplanDetails (env.detail f.url) f.title f.url f.bedroomCount seen with
    | (us, seen') =>
      match phase2 env rest seen' (acc ++ us) with
      | (acc', seen'', urls) => (acc', seen'', f.url :: urls)

/-- `scrapeApartments` as a function of the browser-context state and the site
environment.  The first component is the observable navigation trace (strategy
names attempted on the index page, then detail URLs visited); the second the
returned apartments or the propagated error.  A missing context throws before
any navigation. -/
def scrapeApartments (currentYear : Nat) (context : Option Unit) (env : ScrapeEnv) :
    List String × Except String (List Apartment) :=
  match context with
  | none => ([], .error "Browser not initialized. Call initialize() first.")
  | some _ =>
    match navLoop env.navRes strategies with
    | (attempted, navRes) =>
      let navTrace := attempted.map (·.name)
      match navRes with
      | .error e => (navTrace, .error e)
      | .ok _ =>
        let qualifying := discoverFloorplans env.cards
        match phase2 env qualifying [] [] with
        | (units, _, urls) => (navTrace ++ urls, .ok (processScrapedUnits currentYear units))

/-- Observable events of `run()`'s retry loop. -/
inductive RunEvent where
  | attemptStart (n : Nat)
  | cleanupCall (sessionWasOpen : Bool)
deriving DecidableEq, Repr

/-- The retry loop of `run()` over the per-attempt pipeline outcome
(`initialize()` + `scrapeApartments()`, abstracted as one outcome per attempt
number; `initialize` itself begins with a `cleanup()` call).  On success the
result is returned immediately, with no further cleanup; on failure the
session is closed and the next attempt starts; after the last failure a final
cleanup runs and the last error is re-thrown. -/
def runAux {R : Type} (outcome : Nat → Except String R) :
    Nat → Nat → Bool → Option String → List RunEvent × Except String R
  | 0, _, sessionOpen, lastErr =>
    ([.cleanupCall sessionOpen], .error (lastErr.getD "All scraping attempts failed"))
  | n + 1, k, sessionOpen, _ =>
    match outcome k with
    | .ok r => ([.attemptStart k, .cleanupCall sessionOpen], .ok r)
    | .error e =>
      match runAux outcome n (k + 1) false (some e) with
      | (evs, res) =>
        (RunEvent.attemptStart k :: RunEvent.cleanupCall sessionOpen ::
           RunEvent.cleanupCall true :: evs, res)

/-- `run()` with `maxRetries = 3`. -/
def runScraper {R : Type} (outcome : Nat → Except String R) :
    List RunEvent × Except String R :=
  runAux outcome 3 1 false none

/-- Number of events that actually close an open browser session. -/
def sessionCloses (evs : List RunEvent) : Nat :=
  (evs.filter fun e => e = RunEvent.cleanupCall true).length

/-- Events strictly before the start of attempt `n`. -/
def beforeAttempt (n : Nat) (evs : List RunEvent) : List RunEvent :=
  evs.takeWhile fun e => e ≠ RunEvent.attemptStart n

/-- Events from the start of attempt `n` on. -/
def fromAttempt (n : Nat) (evs : List RunEvent) : List RunEvent :=
  evs.dropWhile fun e => e ≠ RunEvent.attemptStart n

/-! ## Concrete sample data -/

/-- A pipeline behaviour that fails on attempts 1 and 2 and succeeds on
attempt 3 (the scenario of the run-retry property). -/
def attempt3Outcome : Nat → Except String Nat :=
  fun n => if n = 3 then .ok 42 else .error "scrape failed"

/-- A detail page whose first candidate selector yields one good container and
whose second selector's `textContent` throws. -/
def envPartialFail : DetailEnv :=
  { gotoRes := .ok ()
    buttonCount := .ok 0
    clickRes := .ok ()
    containerTexts := fun sel =>
      if sel = ".availability-dropdown" then [.ok (some "#AB-1 $5 9/28")]
      else if sel = ".unit-details" then [.error "locator timeout"]
      else []
    bodyText := .ok none }

/-- The record extracted from `envPartialFail` before its error. -/
def unitAB1 : ScrapedUnit :=
  { unitNumber := "AB-1", rent := "$5", availabilityDate := "9/28",
    floorplanName := "The Dellwood", floorplanUrl := "u", bedroomCount := 0 }

/-- A detail page whose navigation fails outright. -/
def envNavFail : DetailEnv :=
  { gotoRes := .error "net::ERR_TIMED_OUT"
    buttonCount := .ok 0
    clickRes := .ok ()
    containerTexts := fun _ => []
    bodyText := .ok none }

/-- A detail page with no unit containers whose body text carries an
`EAST`-prefixed unit token, a price token and a date token, but not the
literal `WEST-641`. -/
def envEastBody : DetailEnv :=
  { gotoRes := .ok ()
    buttonCount := .ok 0
    clickRes := .ok ()
    containerTexts := fun _ => []
    bodyText := .ok (some "#EAST-100 $1,200 Available Sep 28") }

/-- The record the fallback emits from the `WEST-641` sample body text. -/
def unitWest641 : ScrapedUnit :=
  { unitNumber := "WEST-641", rent := "$1,993", availabilityDate := "Sep 28",
    floorplanName := "The Dellwood", floorplanUrl := "u", bedroomCount := 0 }

/-- Index-page navigation that succeeds only on the third strategy. -/
def navBehaveS : Nat → Except String Unit :=
  fun n => if n = 2 then .ok () else .error "nav fail"

/-- Index-page navigation on which every strategy fails. -/
def navBehaveF : Nat → Except String Unit :=
  fun _ => .error "nav fail"

/-- A one-bedroom listing card advertising a starting price. -/
def cardOneBR : Card :=
  { scrollOk := true
    titleRes := .ok (some "1 Bedroom Deluxe")
    textRes := .ok (some "Starting at $1,500") }

/-- The qualifying floorplan discovered from `cardOneBR`. -/
def floorplanOneBR : Floorplan :=
  { title := "1 Bedroom Deluxe"
    url := "https://flatsatpcm.com/floorplans/the-1-bedroom-deluxe/"
    bedroomCount := 1 }

/-- A raw record used to exercise the final dedup at duplicated input. -/
def unitWest437 : ScrapedUnit :=
  { unitNumber := "WEST-437", rent := "$1,991", availabilityDate := "Sep 28",
    floorplanName := "The Dellwood", floorplanUrl := "u", bedroomCount := 1 }

/-- Shape of a raw unit-match token body: uppercase letters, dash, digits. -/
def UnitCore (tok : List Char) : Prop :=
  ∃ L D, tok = L ++ '-' :: D ∧ L ≠ [] ∧ (∀ c ∈ L, c.isUpper) ∧ D ≠ [] ∧ ∀ c ∈ D, c.isDigit

/-- Shape of a full unit-match token: a `UnitCore` body, optionally preceded
by `#`. -/
def UnitTok (tok : List Char) : Prop :=
  UnitCore tok ∨ ∃ t, tok = '#' :: t ∧ UnitCore t

/-- Shape invariant of every raw record the extractor emits: the unit number
is letters-dash-digits (exactly one dash) and the rent and availability texts
are dash-free. -/
def GoodUnit (u : ScrapedUnit) : Prop :=
  OneDashL u.unitNumber.data ∧ NoDashL u.rent.data ∧ NoDashL u.availabilityDate.data

/-! # Theorems

First the combinatorics of the dash-joined deduplication key, then the shape
invariants of the extractor, then the claims. -/

theorem splitDash_ne_nil (l : List Char) : splitDash l ≠ [] := by
  induction l with
  | nil => simp [splitDash]
  | cons c cs ih =>
    unfold splitDash
    split
    · simp
    · split
      · simp
      · simp

theorem splitDash_cons_dash (cs : List Char) : splitDash ('-' :: cs) = [] :: splitDash cs := by
  simp [splitDash]

theorem splitDash_cons_ne (c : Char) (cs : List Char) (hc : ¬ c = '-') :
    splitDash (c :: cs) =
      match splitDash cs with
      | [] => [[c]]
      | p :: ps => (c :: p) :: ps := by
  simp [splitDash, hc]

theorem splitDash_append (a b : List Char) :
    splitDash (a ++ '-' :: b) = splitDash a ++ splitDash b := by
  induction a with
  | nil => rw [List.nil_append, splitDash_cons_dash]; rfl
  | cons c cs ih =>
    rw [List.cons_append]
    by_cases hc : c = '-'
    · subst hc
      rw [splitDash_cons_dash, splitDash_cons_dash, ih]
      rfl
    · rw [splitDash_cons_ne c _ hc, splitDash_cons_ne c cs hc, ih]
      rcases h : splitDash cs with _ | ⟨p, ps⟩
      · exact absurd h (splitDash_ne_nil cs)
      · rfl

theorem splitDash_nodash (l : List Char) (h : '-' ∉ l) : splitDash l = [l] := by
  induction l with
  | nil => rfl
  | cons c cs ih =>
    have hc : ¬ c = '-' := by
      intro hc; exact h (hc ▸ List.mem_cons_self c cs)
    have hcs : '-' ∉ cs := fun hm => h (List.mem_cons_of_mem c hm)
    simp only [splitDash, if_neg hc, ih hcs]

theorem joinDash_splitDash (l : List Char) : joinDash (splitDash l) = l := by
  induction l with
  | nil => rfl
  | cons c cs ih =>
    by_cases hc : c = '-'
    · subst hc
      simp only [splitDash, if_pos rfl]
      rcases h : splitDash cs with _ | ⟨p, ps⟩
      · exact absurd h (splitDash_ne_nil cs)
      · rw [h] at ih
        show joinDash ([] :: p :: ps) = '-' :: cs
        simpa [joinDash] using ih
    · simp only [splitDash, if_neg hc]
      rcases h : splitDash cs with _ | ⟨p, ps⟩
      · exact absurd h (splitDash_ne_nil cs)
      · rw [h] at ih
        cases ps with
        | nil => simpa [joinDash] using congrArg (c :: ·) ih
        | cons q qs => simpa [joinDash] using congrArg (c :: ·) ih

theorem splitDash_inj {a b : List Char} (h : splitDash a = splitDash b) : a = b := by
  have := congrArg joinDash h
  rwa [joinDash_splitDash, joinDash_splitDash] at this

theorem key_data (fp un r a : String) :
    (joinKey fp un r a).data =
      fp.data ++ '-' :: (un.data ++ '-' :: (r.data ++ '-' :: a.data)) := by
  simp [joinKey, String.data_append]

/-- Decomposition of a key's dash-segments under the extractor's shapes. -/
theorem key_splitDash (fp un r a : String) (L D : List Char)
    (hun : un.data = L ++ '-' :: D) (hL : '-' ∉ L) (hD : '-' ∉ D)
    (hr : NoDashL r.data) (ha : NoDashL a.data) :
    splitDash (joinKey fp un r a).data =
      splitDash fp.data ++ [L, D, r.data, a.data] := by
  rw [key_data, splitDash_append, hun, splitDash_append, splitDash_append,
      splitDash_append, splitDash_nodash L hL, splitDash_nodash D hD,
      splitDash_nodash r.data hr, splitDash_nodash a.data ha]
  simp

/-- Injectivity of the deduplication key on shaped components: two records
produce the same key exactly when floorplan name, unit number, rent text and
availability text all coincide, provided the unit numbers have their
letters-dash-digits shape and the rent and availability texts are dash-free
(which the extractor guarantees). -/
theorem joinKey_eq_iff (fp1 un1 r1 a1 fp2 un2 r2 a2 : String)
    (hu1 : OneDashL un1.data) (hr1 : NoDashL r1.data) (ha1 : NoDashL a1.data)
    (hu2 : OneDashL un2.data) (hr2 : NoDashL r2.data) (ha2 : NoDashL a2.data) :
    joinKey fp1 un1 r1 a1 = joinKey fp2 un2 r2 a2 ↔
      (fp1 = fp2 ∧ un1 = un2 ∧ r1 = r2 ∧ a1 = a2) := by
  constructor
  · intro h
    obtain ⟨L1, D1, hun1, hL1, hD1⟩ := hu1
    obtain ⟨L2, D2, hun2, hL2, hD2⟩ := hu2
    have hd := congrArg (fun s => splitDash s.data) h
    simp only [key_splitDash fp1 un1 r1 a1 L1 D1 hun1 hL1 hD1 hr1 ha1,
      key_splitDash fp2 un2 r2 a2 L2 D2 hun2 hL2 hD2 hr2 ha2] at hd
    have hlen : ([L1, D1, r1.data, a1.data] : List (List Char)).length =
        ([L2, D2, r2.data, a2.data] : List (List Char)).length := rfl
    obtain ⟨hfp, hrest⟩ := List.append_inj' hd hlen
    have hfp' : fp1 = fp2 := String.ext (splitDash_inj hfp)
    have hL : L1 = L2 := by injection hrest
    have hrest2 := hrest
    simp only [List.cons.injEq] at hrest2
    obtain ⟨_, hDD, hrr, haa, _⟩ := hrest2
    refine ⟨hfp', String.ext ?_, String.ext hrr, String.ext haa⟩
    rw [hun1, hun2, hL, hDD]
  · rintro ⟨rfl, rfl, rfl, rfl⟩
    rfl

/-- Unconditional single-field distinctness: whatever the field values, two
keys can only coincide when, three fields being equal, the fourth is equal as
well — so records differing in exactly one field are never deduplicated
against each other. -/
theorem joinKey_single_field (fp1 un1 r1 a1 fp2 un2 r2 a2 : String)
    (h : joinKey fp1 un1 r1 a1 = joinKey fp2 un2 r2 a2) :
    ((un1 = un2 ∧ r1 = r2 ∧ a1 = a2) → fp1 = fp2) ∧
    ((fp1 = fp2 ∧ r1 = r2 ∧ a1 = a2) → un1 = un2) ∧
    ((fp1 = fp2 ∧ un1 = un2 ∧ a1 = a2) → r1 = r2) ∧
    ((fp1 = fp2 ∧ un1 = un2 ∧ r1 = r2) → a1 = a2) := by
  have hd := congrArg String.data h
  rw [key_data, key_data] at hd
  refine ⟨?_, ?_, ?_, ?_⟩
  · rintro ⟨h1, h2, h3⟩
    rw [h1, h2, h3] at hd
    exact String.ext (List.append_inj' hd rfl).1
  · rintro ⟨h1, h2, h3⟩
    rw [h1, h2, h3] at hd
    have hd2 := List.append_cancel_left hd
    injection hd2 with _ hd3
    exact String.ext (List.append_inj' hd3 rfl).1
  · rintro ⟨h1, h2, h3⟩
    rw [h1, h2, h3] at hd
    have hd2 := List.append_cancel_left hd
    injection hd2 with _ hd3
    have hd4 := List.append_cancel_left hd3
    injection hd4 with _ hd5
    exact String.ext (List.append_inj' hd5 rfl).1
  · rintro ⟨h1, h2, h3⟩
    rw [h1, h2, h3] at hd
    have hd2 := List.append_cancel_left hd
    injection hd2 with _ hd3
    have hd4 := List.append_cancel_left hd3
    injection hd4 with _ hd5
    have hd6 := List.append_cancel_left hd5
    injection hd6 with _ hd7
    exact String.ext hd7

/-! ## Character-class facts -/

theorem jsSpace_iff {c : Char} :
    jsSpace c = true ↔
      (c = ' ' ∨ c = '\t' ∨ c = '\n' ∨ c = '\r' ∨ c = '\x0b' ∨ c = '\x0c') := by
  simp [jsSpace, or_assoc]

theorem upper_not_space {c : Char} (h : c.isUpper = true) : jsSpace c = false := by
  cases hs : jsSpace c
  · rfl
  · rw [jsSpace_iff] at hs
    rcases hs with rfl | rfl | rfl | rfl | rfl | rfl <;> revert h <;> decide

theorem digit_not_space {c : Char} (h : c.isDigit = true) : jsSpace c = false := by
  cases hs : jsSpace c
  · rfl
  · rw [jsSpace_iff] at hs
    rcases hs with rfl | rfl | rfl | rfl | rfl | rfl <;> revert h <;> decide

theorem upper_ne {c : Char} (h : c.isUpper = true) {d : Char}
    (hd : d.isUpper = false) : c ≠ d := by
  intro hcd; rw [hcd] at h; rw [h] at hd; cases hd

theorem digit_ne {c : Char} (h : c.isDigit = true) {d : Char}
    (hd : d.isDigit = false) : c ≠ d := by
  intro hcd; rw [hcd] at h; rw [h] at hd; cases hd

theorem space_ne_dash {c : Char} (h : jsSpace c = true) : c ≠ '-' := by
  intro hc; subst hc; cases h

theorem alpha_ne_dash {c : Char} (h : c.isAlpha = true) : c ≠ '-' := by
  intro hc; subst hc; cases h

/-! ## Subset and identity facts for trim and replace -/

theorem dropLit_mem {pat : List Char} :
    ∀ {l r : List Char}, dropLit pat l = some r → ∀ c ∈ r, c ∈ l := by
  induction pat with
  | nil =>
    intro l r h c hc
    cases h
    exact hc
  | cons p ps ih =>
    intro l r h c hc
    cases l with
    | nil => cases h
    | cons x xs =>
      unfold dropLit at h
      split at h
      · exact List.mem_cons_of_mem x (ih h c hc)
      · cases h

theorem mem_trimChars {c : Char} {l : List Char} (h : c ∈ trimChars l) : c ∈ l := by
  unfold trimChars at h
  have h1 : c ∈ (l.dropWhile jsSpace).reverse.dropWhile jsSpace := List.mem_reverse.1 h
  have h2 : c ∈ (l.dropWhile jsSpace).reverse :=
    List.Sublist.mem h1 (List.dropWhile_sublist jsSpace)
  exact List.Sublist.mem (List.mem_reverse.1 h2) (List.dropWhile_sublist jsSpace)

theorem mem_replaceDel {pat : List Char} {c : Char} :
    ∀ {l : List Char}, c ∈ replaceFirstL pat [] l → c ∈ l := by
  intro l
  induction l with
  | nil =>
    intro h
    unfold replaceFirstL at h
    split at h <;> simp at h
  | cons x xs ih =>
    intro h
    unfold replaceFirstL at h
    cases hd : dropLit pat (x :: xs) with
    | some rest =>
      rw [hd] at h
      exact dropLit_mem hd c (by simpa using h)
    | none =>
      rw [hd] at h
      rcases List.mem_cons.1 h with hm1 | hm
      · subst hm1; exact List.mem_cons_self _ _
      · exact List.mem_cons_of_mem x (ih hm)

theorem dropWhile_eq_self {p : Char → Bool} {l : List Char}
    (h : ∀ c ∈ l, p c = false) : l.dropWhile p = l := by
  cases l with
  | nil => rfl
  | cons x xs =>
    rw [List.dropWhile_cons, h x (List.mem_cons_self x xs)]
    simp

theorem trimChars_eq_self {l : List Char} (h : ∀ c ∈ l, jsSpace c = false) :
    trimChars l = l := by
  unfold trimChars
  rw [dropWhile_eq_self h, dropWhile_eq_self fun c hc => h c (List.mem_reverse.1 hc),
    List.reverse_reverse]

theorem replaceDel_not_mem {p : Char} {l : List Char} (h : p ∉ l) :
    replaceFirstL [p] [] l = l := by
  induction l with
  | nil => rfl
  | cons x xs ih =>
    have hx : ¬ x = p := fun hh => h (hh ▸ List.mem_cons_self x xs)
    have hdl : dropLit [p] (x :: xs) = none := by simp [dropLit, hx]
    unfold replaceFirstL
    rw [hdl, ih fun hm => h (List.mem_cons_of_mem x hm)]

/-! ## Matcher postconditions -/

theorem matchUpperDash_core {minL : Nat} (hm : 1 ≤ minL) {l tok r : List Char}
    (h : matchUpperDash minL l = some (tok, r)) : UnitCore tok := by
  simp only [matchUpperDash] at h
  split at h
  · rename_i hlen
    split at h
    · rename_i r2 heq
      split at h
      · cases h
      · rename_i hds
        simp only [Option.some.injEq, Prod.mk.injEq] at h
        obtain ⟨h2, _⟩ := h
        refine ⟨l.takeWhile Char.isUpper, r2.takeWhile Char.isDigit, h2.symm, ?_,
          fun c hc => List.mem_takeWhile_imp hc, ?_,
          fun c hc => List.mem_takeWhile_imp hc⟩
        · intro hnil
          rw [hnil] at hlen
          simp at hlen
          omega
        · intro hnil
          rw [hnil] at hds
          exact hds rfl
    · cases h
  · cases h

theorem matchLitDigits_shape {W : List Char} {l tok r : List Char}
    (h : matchLitDigits (W ++ ['-']) l = some (tok, r)) :
    ∃ D, tok = W ++ '-' :: D ∧ D ≠ [] ∧ ∀ c ∈ D, c.isDigit := by
  simp only [matchLitDigits] at h
  split at h
  · cases h
  · rename_i rr heq
    split at h
    · cases h
    · rename_i hds
      simp only [Option.some.injEq, Prod.mk.injEq] at h
      obtain ⟨h2, _⟩ := h
      refine ⟨rr.takeWhile Char.isDigit, ?_, ?_, fun c hc => List.mem_takeWhile_imp hc⟩
      · rw [← h2, List.append_assoc]
        rfl
      · intro hnil
        rw [hnil] at hds
        exact hds rfl

theorem litDigits_core {W : List Char} (hW : W ≠ []) (hWu : ∀ c ∈ W, c.isUpper)
    {l tok r : List Char} (h : matchLitDigits (W ++ ['-']) l = some (tok, r)) :
    UnitCore tok := by
  obtain ⟨D, hD, hDne, hDd⟩ := matchLitDigits_shape h
  exact ⟨W, D, hD, hW, hWu, hDne, hDd⟩

theorem unitBodyA_core {l tok r : List Char} (h : unitBodyA l = some (tok, r)) :
    UnitCore tok := by
  unfold unitBodyA at h
  split at h
  · rename_i p heq
    obtain ⟨t1, r1⟩ := p
    simp only [Option.some.injEq, Prod.mk.injEq] at h
    obtain ⟨h2, h3⟩ := h
    rw [← h2]
    exact matchUpperDash_core (by omega) heq
  · split at h
    · rename_i p heq
      obtain ⟨t1, r1⟩ := p
      simp only [Option.some.injEq, Prod.mk.injEq] at h
      obtain ⟨h2, h3⟩ := h
      rw [← h2]
      rw [show ("WEST-".data : List Char) = "WEST".data ++ ['-'] from by decide] at heq
      exact litDigits_core (by decide) (by decide) heq
    · split at h
      · rename_i p heq
        obtain ⟨t1, r1⟩ := p
        simp only [Option.some.injEq, Prod.mk.injEq] at h
        obtain ⟨h2, h3⟩ := h
        rw [← h2]
        rw [show ("EAST-".data : List Char) = "EAST".data ++ ['-'] from by decide] at heq
        exact litDigits_core (by decide) (by decide) heq
      · split at h
        · rename_i p heq
          obtain ⟨t1, r1⟩ := p
          simp only [Option.some.injEq, Prod.mk.injEq] at h
          obtain ⟨h2, h3⟩ := h
          rw [← h2]
          rw [show ("NORTH-".data : List Char) = "NORTH".data ++ ['-'] from by decide] at heq
          exact litDigits_core (by decide) (by decide) heq
        · rw [show ("SOUTH-".data : List Char) = "SOUTH".data ++ ['-'] from by decide] at h
          exact litDigits_core (by decide) (by decide) h

theorem unitBodyB_core {l tok r : List Char} (h : unitBodyB l = some (tok, r)) :
    UnitCore tok :=
  matchUpperDash_core (by omega) h

theorem westBody_core {l tok r : List Char}
    (h : matchLitDigits "WEST-".data l = some (tok, r)) : UnitCore tok := by
  have litW : ("WEST-".data : List Char) = "WEST".data ++ ['-'] := by decide
  rw [litW] at h
  obtain ⟨D, hD, hDne, hDd⟩ := matchLitDigits_shape h
  exact ⟨"WEST".data, D, hD, by decide, by decide, hDne, hDd⟩

theorem matchUnitAt_tok {body : List Char → Option (List Char × List Char)}
    (hb : ∀ l tok r, body l = some (tok, r) → UnitCore tok)
    {l tok r : List Char} (h : matchUnitAt body l = some (tok, r)) : UnitTok tok := by
  unfold matchUnitAt at h
  split at h
  · rename_i rest
    cases h1 : body rest with
    | some p =>
      rw [h1] at h
      obtain ⟨t1, r1⟩ := p
      simp only [Option.some.injEq, Prod.mk.injEq] at h
      obtain ⟨h2, _⟩ := h
      exact Or.inr ⟨t1, h2.symm, hb rest t1 r1 h1⟩
    | none =>
      rw [h1] at h
      exact Or.inl (hb _ tok r h)
  · exact Or.inl (hb _ tok r h)

theorem matchPriceAt_nodash {l tok r : List Char}
    (h : matchPriceAt l = some (tok, r)) : NoDashL tok := by
  simp only [matchPriceAt] at h
  split at h
  · rename_i rest
    split at h
    · cases h
    · simp only [Option.some.injEq, Prod.mk.injEq] at h
      obtain ⟨h2, _⟩ := h
      intro hm
      rw [← h2] at hm
      rcases List.mem_cons.1 hm with h3 | h3
      · cases h3
      · have := List.mem_takeWhile_imp h3
        simp at this
  · cases h

theorem matchAvailDateAt_nodash {l full grp r : List Char}
    (h : matchAvailDateAt l = some (full, grp, r)) :
    NoDashL full ∧ NoDashL grp := by
  simp only [matchAvailDateAt] at h
  split at h
  · cases h
  · rename_i r1 heq
    split at h
    · cases h
    · split at h
      · cases h
      · split at h
        · cases h
        · split at h
          · cases h
          · simp only [Option.some.injEq, Prod.mk.injEq] at h
            obtain ⟨hfull, hgrp, _⟩ := h
            have hg : NoDashL (((r1.dropWhile jsSpace).takeWhile Char.isAlpha ++
                ((r1.dropWhile jsSpace).dropWhile Char.isAlpha).takeWhile jsSpace) ++
                (((r1.dropWhile jsSpace).dropWhile Char.isAlpha).dropWhile jsSpace).takeWhile
                  Char.isDigit) := by
              intro hm
              rcases List.mem_append.1 hm with h3 | h3
              · rcases List.mem_append.1 h3 with h4 | h4
                · exact alpha_ne_dash (List.mem_takeWhile_imp h4) rfl
                · exact space_ne_dash (List.mem_takeWhile_imp h4) rfl
              · exact digit_ne (List.mem_takeWhile_imp h3) (by decide) rfl
            constructor
            · intro hm
              rw [← hfull] at hm
              rcases List.mem_append.1 hm with h3 | h3
              · rcases List.mem_append.1 h3 with h4 | h4
                · revert h4
                  decide
                · exact space_ne_dash (List.mem_takeWhile_imp h4) rfl
              · exact hg (by simpa [List.append_assoc] using h3)
            · intro hm
              rw [← hgrp] at hm
              exact hg (by simpa [List.append_assoc] using hm)

theorem matchSlashAt_nodash {l tok r : List Char}
    (h : matchSlashAt l = some (tok, r)) : NoDashL tok := by
  simp only [matchSlashAt] at h
  split at h
  · cases h
  · split at h
    · rename_i r2 heq
      split at h
      · cases h
      · simp only [Option.some.injEq, Prod.mk.injEq] at h
        obtain ⟨h2, _⟩ := h
        intro hm
        rw [← h2] at hm
        rcases List.mem_append.1 hm with h3 | h3
        · exact digit_ne (List.mem_takeWhile_imp h3) (by decide) rfl
        · rcases List.mem_cons.1 h3 with h4 | h4
          · cases h4
          · exact digit_ne (List.mem_takeWhile_imp h4) (by decide) rfl
    · cases h

theorem matchDateAt_nodash {l tok r : List Char}
    (h : matchDateAt l = some (tok, r)) : NoDashL tok := by
  unfold matchDateAt at h
  split at h
  · rename_i full grp rr heq
    simp only [Option.some.injEq, Prod.mk.injEq] at h
    obtain ⟨h2, _⟩ := h
    rw [← h2]
    exact (matchAvailDateAt_nodash heq).1
  · exact matchSlashAt_nodash h

/-! ## Properties of the scanners -/

theorem scanF_mem {m : List Char → Option (List Char × List Char)}
    {P : List Char → Prop} (hm : ∀ l tok r, m l = some (tok, r) → P tok) :
    ∀ fuel l tok, tok ∈ scanF m fuel l → P tok := by
  intro fuel
  induction fuel with
  | zero =>
    intro l tok h
    simp [scanF] at h
  | succ n ih =>
    intro l tok h
    cases l with
    | nil => simp [scanF] at h
    | cons c cs =>
      unfold scanF at h
      cases h1 : m (c :: cs) with
      | some p =>
        obtain ⟨t1, r1⟩ := p
        rw [h1] at h
        rcases List.mem_cons.1 h with h2 | h2
        · rw [h2]
          exact hm _ t1 r1 h1
        · exact ih r1 tok h2
      | none =>
        rw [h1] at h
        exact ih cs tok h

theorem scanAll_mem {m : List Char → Option (List Char × List Char)}
    {P : List Char → Prop} (hm : ∀ l tok r, m l = some (tok, r) → P tok)
    {l tok : List Char} (h : tok ∈ scanAll m l) : P tok :=
  scanF_mem hm l.length l tok h

theorem firstSome_prop {β : Type} {f : List Char → Option β}
    {P : β → Prop} (hf : ∀ l b, f l = some b → P b) :
    ∀ l b, firstSome f l = some b → P b := by
  intro l
  induction l with
  | nil =>
    intro b h
    cases h
  | cons c cs ih =>
    intro b h
    unfold firstSome at h
    cases h1 : f (c :: cs) with
    | some b1 =>
      rw [h1] at h
      cases h
      exact hf _ _ h1
    | none =>
      rw [h1] at h
      exact ih b h

theorem getD_mem_or {α : Type} (l : List α) (j : Nat) (d : α) :
    l.getD j d ∈ l ∨ l.getD j d = d := by
  induction l generalizing j with
  | nil => right; simp [List.getD]
  | cons a as ih =>
    cases j with
    | zero => left; simp [List.getD]
    | succ n =>
      rw [List.getD_cons_succ]
      rcases ih n with h | h
      · exact Or.inl (List.mem_cons_of_mem a h)
      · exact Or.inr h

theorem getD_headD_mem {α : Type} (l : List α) (j : Nat) (x : α) (h : l ≠ []) :
    l.getD j (l.headD x) ∈ l := by
  rcases getD_mem_or l j (l.headD x) with hm | he
  · exact hm
  · rw [he]
    cases l with
    | nil => exact absurd rfl h
    | cons a as => exact List.mem_cons_self a as

/-! ## From unit tokens to record fields -/

theorem unitCore_oneDash {t : List Char} (h : UnitCore t) : OneDashL t := by
  obtain ⟨L, D, rfl, _, hLu, _, hDd⟩ := h
  refine ⟨L, D, rfl, ?_, ?_⟩
  · intro hm
    exact upper_ne (hLu '-' hm) (by decide) rfl
  · intro hm
    exact digit_ne (hDd '-' hm) (by decide) rfl

theorem unitCore_no_space {t : List Char} (h : UnitCore t) :
    ∀ c ∈ t, jsSpace c = false := by
  obtain ⟨L, D, rfl, _, hLu, _, hDd⟩ := h
  intro c hc
  rcases List.mem_append.1 hc with h1 | h1
  · exact upper_not_space (hLu c h1)
  · rcases List.mem_cons.1 h1 with h2 | h2
    · rw [h2]; rfl
    · exact digit_not_space (hDd c h2)

theorem unitCore_no_hash {t : List Char} (h : UnitCore t) : '#' ∉ t := by
  obtain ⟨L, D, rfl, _, hLu, _, hDd⟩ := h
  intro hm
  rcases List.mem_append.1 hm with h1 | h1
  · exact upper_ne (hLu '#' h1) (by decide) rfl
  · rcases List.mem_cons.1 h1 with h2 | h2
    · cases h2
    · exact digit_ne (hDd '#' h2) (by decide) rfl

/-- The unit-number field built from a shaped token (`replace('#','')` then
`trim()`) has the letters-dash-digits shape. -/
theorem unitTok_field {tok : List Char} (h : UnitTok tok) :
    OneDashL (trimChars (replaceFirstL ['#'] [] tok)) := by
  rcases h with hc | ⟨t, rfl, hc⟩
  · rw [replaceDel_not_mem (unitCore_no_hash hc), trimChars_eq_self (unitCore_no_space hc)]
    exact unitCore_oneDash hc
  · have hrep : replaceFirstL ['#'] [] ('#' :: t) = t := by
      unfold replaceFirstL
      simp [dropLit]
    rw [hrep, trimChars_eq_self (unitCore_no_space hc)]
    exact unitCore_oneDash hc

/-! ## The extractor's shape invariant -/

theorem containerEmit_good (fp url : String) (bc : Nat)
    (priceMs dateMs : List (List Char))
    (hp : ∀ p ∈ priceMs, NoDashL p) (hpne : priceMs ≠ [])
    (hd : ∀ d ∈ dateMs, NoDashL d) :
    ∀ (ums : List (List Char)) (j : Nat) (seen : List String) (acc : List ScrapedUnit)
      (found : Bool), (∀ um ∈ ums, UnitTok um) → (∀ u ∈ acc, GoodUnit u) →
      ∀ u ∈ (containerEmit fp url bc priceMs dateMs j ums seen acc found).1, GoodUnit u := by
  intro ums
  induction ums with
  | nil =>
    intro j seen acc found _ hacc u hu
    exact hacc u hu
  | cons um rest ih =>
    intro j seen acc found hums hacc u hu
    have htail : ∀ x ∈ rest, UnitTok x := fun x hx => hums x (List.mem_cons_of_mem um hx)
    have hhead : UnitTok um := hums um (List.mem_cons_self um rest)
    simp only [containerEmit] at hu
    split at hu
    · -- dateMs is empty: availability literal `Available Now`
      split at hu
      · exact ih (j + 1) seen acc found htail hacc u hu
      · refine ih (j + 1) _ _ true htail ?_ u hu
        intro v hv
        rcases List.mem_append.1 hv with hv1 | hv1
        · exact hacc v hv1
        · rw [List.mem_singleton] at hv1
          subst hv1
          refine ⟨unitTok_field hhead, ?_, ?_⟩
          · intro hm
            exact hp _ (getD_headD_mem priceMs j [] hpne) (mem_trimChars hm)
          · intro hm
            have h1 := mem_replaceDel (mem_trimChars hm)
            revert h1
            decide
    · -- dateMs nonempty: availability from the date-match array
      rename_i hde
      split at hu
      · exact ih (j + 1) seen acc found htail hacc u hu
      · refine ih (j + 1) _ _ true htail ?_ u hu
        intro v hv
        rcases List.mem_append.1 hv with hv1 | hv1
        · exact hacc v hv1
        · rw [List.mem_singleton] at hv1
          subst hv1
          refine ⟨unitTok_field hhead, ?_, ?_⟩
          · intro hm
            exact hp _ (getD_headD_mem priceMs j [] hpne) (mem_trimChars hm)
          · intro hm
            have h1 := mem_replaceDel (mem_trimChars hm)
            refine hd _ (getD_headD_mem dateMs j [] ?_) h1
            intro hnil
            rw [hnil] at hde
            exact hde rfl

theorem processContainerText_good (fp url : String) (bc : Nat) (t : String)
    (seen : List String) (acc : List ScrapedUnit) (found : Bool)
    (hacc : ∀ u ∈ acc, GoodUnit u) :
    ∀ u ∈ (processContainerText fp url bc t seen acc found).1, GoodUnit u := by
  intro u hu
  simp only [processContainerText] at hu
  split at hu
  · -- the `'#'`/`'$'` guard holds
    split at hu
    · -- pattern A yielded nothing: pattern B is used
      split at hu
      · rename_i hup
        refine containerEmit_good fp url bc _ _ ?_ ?_ ?_ _ 0 seen acc found ?_ hacc u hu
        · intro p hpm
          exact scanAll_mem (fun l tok r h => matchPriceAt_nodash h) hpm
        · intro hnil
          rw [hnil] at hup
          exact hup.2 rfl
        · intro d hdm
          exact scanAll_mem (fun l tok r h => matchDateAt_nodash h) hdm
        · intro um hum
          exact scanAll_mem
            (fun l tok r h => matchUnitAt_tok (fun l2 t2 r2 h2 => unitBodyB_core h2) h) hum
      · exact hacc u hu
    · -- pattern A matched
      split at hu
      · rename_i hup
        refine containerEmit_good fp url bc _ _ ?_ ?_ ?_ _ 0 seen acc found ?_ hacc u hu
        · intro p hpm
          exact scanAll_mem (fun l tok r h => matchPriceAt_nodash h) hpm
        · intro hnil
          rw [hnil] at hup
          exact hup.2 rfl
        · intro d hdm
          exact scanAll_mem (fun l tok r h => matchDateAt_nodash h) hdm
        · intro um hum
          exact scanAll_mem
            (fun l tok r h => matchUnitAt_tok (fun l2 t2 r2 h2 => unitBodyA_core h2) h) hum
      · exact hacc u hu
  · exact hacc u hu

theorem textsLoop_good (fp url : String) (bc : Nat) :
    ∀ (ts : List (Except String (Option String))) (seen : List String)
      (acc : List ScrapedUnit) (found : Bool), (∀ u ∈ acc, GoodUnit u) →
      ∀ u ∈ (textsLoop fp url bc ts seen acc found).1, GoodUnit u := by
  intro ts
  induction ts with
  | nil =>
    intro seen acc found hacc u hu
    exact hacc u hu
  | cons e rest ih =>
    intro seen acc found hacc u hu
    cases e with
    | error err => exact hacc u hu
    | ok o =>
      cases o with
      | none => exact ih seen acc found hacc u hu
      | some t =>
        unfold textsLoop at hu
        rcases hpct : processContainerText fp url bc t seen acc found with ⟨acc', seen', found'⟩
        rw [hpct] at hu
        refine ih seen' acc' found' ?_ u hu
        intro v hv
        refine processContainerText_good fp url bc t seen acc found hacc v ?_
        rw [hpct]
        exact hv

theorem containersLoop_good (env : DetailEnv) (fp url : String) (bc : Nat) :
    ∀ (sels : List String) (seen : List String) (acc : List ScrapedUnit)
      (found : Bool), (∀ u ∈ acc, GoodUnit u) →
      ∀ u ∈ (containersLoop env fp url bc sels seen acc found).1, GoodUnit u := by
  intro sels
  induction sels with
  | nil =>
    intro seen acc found hacc u hu
    exact hacc u hu
  | cons sel rest ih =>
    intro seen acc found hacc u hu
    unfold containersLoop at hu
    rcases htl : textsLoop fp url bc (env.containerTexts sel) seen acc found with
      ⟨acc', seen', found', err⟩
    rw [htl] at hu
    have hacc' : ∀ v ∈ acc', GoodUnit v := by
      intro v hv
      refine textsLoop_good fp url bc (env.containerTexts sel) seen acc found hacc v ?_
      rw [htl]
      exact hv
    cases err with
    | some e => exact hacc' u hu
    | none => exact ih seen' acc' found' hacc' u hu

theorem westFull_tok {l full utok r : List Char}
    (h : matchWestFullAt l = some (full, utok, r)) : UnitTok utok := by
  unfold matchWestFullAt at h
  cases h1 : matchUnitAt (matchLitDigits "WEST-".data) l with
  | none => rw [h1] at h; cases h
  | some p =>
    obtain ⟨utok0, r1⟩ := p
    rw [h1] at h
    dsimp only at h
    cases h2 : findTok matchPriceAt r1 with
    | none => rw [h2] at h; cases h
    | some q =>
      obtain ⟨g1, ptok, r2⟩ := q
      rw [h2] at h
      dsimp only at h
      cases h3 : findTok matchDateAt r2 with
      | none => rw [h3] at h; cases h
      | some q2 =>
        obtain ⟨g2, dtok, r3⟩ := q2
        rw [h3] at h
        dsimp only at h
        simp only [Option.some.injEq, Prod.mk.injEq] at h
        obtain ⟨_, h4, _⟩ := h
        rw [← h4]
        exact matchUnitAt_tok (fun l2 t2 r2 h2 => westBody_core h2) h1

theorem scanWestF_tok :
    ∀ (fuel : Nat) (l full utok : List Char), (full, utok) ∈ scanWestF fuel l →
      UnitTok utok := by
  intro fuel
  induction fuel with
  | zero =>
    intro l full utok h
    simp [scanWestF] at h
  | succ n ih =>
    intro l full utok h
    cases l with
    | nil => simp [scanWestF] at h
    | cons c cs =>
      unfold scanWestF at h
      cases h1 : matchWestFullAt (c :: cs) with
      | some p =>
        obtain ⟨f1, u1, r1⟩ := p
        rw [h1] at h
        rcases List.mem_cons.1 h with h2 | h2
        · have h3 : utok = u1 := by
            injection h2 with _ h4
          rw [h3]
          exact westFull_tok h1
        · exact ih r1 full utok h2
      | none =>
        rw [h1] at h
        exact ih cs full utok h

theorem firstPrice_nodash {l p : List Char} (h : firstPrice l = some p) : NoDashL p := by
  refine firstSome_prop ?_ l p h
  intro l2 b hb
  cases h1 : matchPriceAt l2 with
  | some q =>
    rw [h1] at hb
    obtain ⟨tok, r⟩ := q
    cases hb
    exact matchPriceAt_nodash h1
  | none => rw [h1] at hb; cases hb

theorem firstAvailGroup_nodash {l g : List Char} (h : firstAvailGroup l = some g) :
    NoDashL g := by
  refine firstSome_prop ?_ l g h
  intro l2 b hb
  cases h1 : matchAvailDateAt l2 with
  | some q =>
    rw [h1] at hb
    obtain ⟨full, grp, r⟩ := q
    cases hb
    exact (matchAvailDateAt_nodash h1).2
  | none => rw [h1] at hb; cases hb

theorem firstSlash_nodash {l s : List Char} (h : firstSlash l = some s) : NoDashL s := by
  refine firstSome_prop ?_ l s h
  intro l2 b hb
  cases h1 : matchSlashAt l2 with
  | some q =>
    rw [h1] at hb
    obtain ⟨tok, r⟩ := q
    cases hb
    exact matchSlashAt_nodash h1
  | none => rw [h1] at hb; cases hb

theorem fallbackDateVal_nodash (full : List Char) : NoDashL (fallbackDateVal full) := by
  unfold fallbackDateVal
  cases hag : firstAvailGroup full with
  | some g => exact firstAvailGroup_nodash hag
  | none =>
    cases hsl : firstSlash full with
    | some s2 => exact firstSlash_nodash hsl
    | none =>
      show ('-' : Char) ∉ "Available Now".data
      decide

theorem fallbackEmit_good (fp url : String) (bc : Nat) :
    ∀ (pairs : List (List Char × List Char)) (seen : List String)
      (acc : List ScrapedUnit) (found : Bool),
      (∀ p ∈ pairs, UnitTok p.2) → (∀ u ∈ acc, GoodUnit u) →
      ∀ u ∈ (fallbackEmit fp url bc pairs seen acc found).1, GoodUnit u := by
  intro pairs
  induction pairs with
  | nil =>
    intro seen acc found _ hacc u hu
    exact hacc u hu
  | cons pr rest ih =>
    obtain ⟨full, utok⟩ := pr
    intro seen acc found hpairs hacc u hu
    simp only [fallbackEmit] at hu
    cases hfp : firstPrice full with
    | none =>
      rw [hfp] at hu
      dsimp only at hu
      exact ih seen acc found (fun x hx => hpairs x (List.mem_cons_of_mem _ hx)) hacc u hu
    | some ptok =>
      rw [hfp] at hu
      dsimp only at hu
      split at hu
      · exact ih seen acc found (fun x hx => hpairs x (List.mem_cons_of_mem _ hx)) hacc u hu
      · refine ih _ _ true (fun x hx => hpairs x (List.mem_cons_of_mem _ hx)) ?_ u hu
        intro v hv
        rcases List.mem_append.1 hv with hv1 | hv1
        · exact hacc v hv1
        · rw [List.mem_singleton] at hv1
          subst hv1
          refine ⟨unitTok_field (hpairs (full, utok) (List.mem_cons_self _ rest)), ?_, ?_⟩
          · intro hm
            exact firstPrice_nodash hfp (mem_trimChars hm)
          · exact fallbackDateVal_nodash full

theorem bodyFallback_good (fp url : String) (bc : Nat) (txt : String)
    (seen : List String) (acc : List ScrapedUnit) (found : Bool)
    (hacc : ∀ u ∈ acc, GoodUnit u) :
    ∀ u ∈ (bodyFallback fp url bc txt seen acc found).1, GoodUnit u := by
  intro u hu
  unfold bodyFallback at hu
  split at hu
  · refine fallbackEmit_good fp url bc _ seen acc found ?_ hacc u hu
    intro p hp
    obtain ⟨full, utok⟩ := p
    exact scanWestF_tok _ _ full utok hp
  · exact hacc u hu

theorem detailsCore_good (env : DetailEnv) (fp url : String) (bc : Nat)
    (seen : List String) :
    ∀ u ∈ (detailsCore env fp url bc seen).1, GoodUnit u := by
  intro u hu
  unfold detailsCore at hu
  cases hg : env.gotoRes with
  | error e =>
    rw [hg] at hu
    dsimp only at hu
    simp at hu
  | ok _ =>
    rw [hg] at hu
    dsimp only at hu
    cases hb : env.buttonCount with
    | error e =>
      rw [hb] at hu
      dsimp only at hu
      simp at hu
    | ok n =>
      rw [hb] at hu
      dsimp only at hu
      rcases hcl : containersLoop env fp url bc possibleContainers seen [] false with
        ⟨acc, seen', found, err⟩
      rw [hcl] at hu
      have haccG : ∀ v ∈ acc, GoodUnit v := by
        intro v hv
        refine containersLoop_good env fp url bc possibleContainers seen [] false
          (fun x hx => absurd hx (List.not_mem_nil x)) v ?_
        rw [hcl]
        exact hv
      cases err with
      | some e =>
        dsimp only at hu
        exact haccG u hu
      | none =>
        dsimp only at hu
        by_cases hf : found = true
        · rw [if_pos hf] at hu
          exact haccG u hu
        · rw [if_neg hf] at hu
          cases hbt : env.bodyText with
          | error e =>
            rw [hbt] at hu
            dsimp only at hu
            exact haccG u hu
          | ok o =>
            rw [hbt] at hu
            cases o with
            | none => exact haccG u hu
            | some txt => exact bodyFallback_good fp url bc txt seen' acc false haccG u hu

theorem scrapeFloorplanDetails_good (env : DetailEnv) (fp url : String) (bc : Nat)
    (seen : List String) :
    ∀ u ∈ (scrapeFloorplanDetails env fp url bc seen).1, GoodUnit u := by
  intro u hu
  unfold scrapeFloorplanDetails at hu
  rcases hdc : detailsCore env fp url bc seen with ⟨units, seen', err⟩
  rw [hdc] at hu
  refine detailsCore_good env fp url bc seen u ?_
  rw [hdc]
  exact hu

/-! ## Claims -/

/-- C1: every raw unit record the extractor produces in a run has a
letters-dash-digits unit number and dash-free rent and availability texts; on
any components of those shapes the deduplication key (the dash-join of
floorplan name, unit number, rent text and availability text) coincides for
two records exactly when all four fields match exactly; and, for arbitrary
field values, records differing in exactly one of the four fields never map to
the same key, so they are never deduplicated against each other. -/
theorem c1_dedup_key_iff_fields :
    (∀ (env : DetailEnv) (fp url : String) (bc : Nat) (seen : List String),
        ∀ u ∈ (scrapeFloorplanDetails env fp url bc seen).1,
          OneDashL u.unitNumber.data ∧ NoDashL u.rent.data ∧
            NoDashL u.availabilityDate.data) ∧
    (∀ fp1 un1 r1 a1 fp2 un2 r2 a2 : String,
        OneDashL un1.data → NoDashL r1.data → NoDashL a1.data →
        OneDashL un2.data → NoDashL r2.data → NoDashL a2.data →
        (joinKey fp1 un1 r1 a1 = joinKey fp2 un2 r2 a2 ↔
          (fp1 = fp2 ∧ un1 = un2 ∧ r1 = r2 ∧ a1 = a2))) ∧
    (∀ fp1 un1 r1 a1 fp2 un2 r2 a2 : String,
        joinKey fp1 un1 r1 a1 = joinKey fp2 un2 r2 a2 →
        ((un1 = un2 ∧ r1 = r2 ∧ a1 = a2) → fp1 = fp2) ∧
        ((fp1 = fp2 ∧ r1 = r2 ∧ a1 = a2) → un1 = un2) ∧
        ((fp1 = fp2 ∧ un1 = un2 ∧ a1 = a2) → r1 = r2) ∧
        ((fp1 = fp2 ∧ un1 = un2 ∧ r1 = r2) → a1 = a2)) :=
  ⟨fun env fp url bc seen u hu => scrapeFloorplanDetails_good env fp url bc seen u hu,
   fun fp1 un1 r1 a1 fp2 un2 r2 a2 h1 h2 h3 h4 h5 h6 =>
     joinKey_eq_iff fp1 un1 r1 a1 fp2 un2 r2 a2 h1 h2 h3 h4 h5 h6,
   fun fp1 un1 r1 a1 fp2 un2 r2 a2 h =>
     joinKey_single_field fp1 un1 r1 a1 fp2 un2 r2 a2 h⟩

/-- Witness for C1: concrete records — the key equation characterises
field-wise equality on the sample values, and a record differing only in its
unit number gets a distinct key. -/
theorem c1_dedup_key_iff_fields_witness :
    (joinKey "The Dellwood" "WEST-437" "$1,991" "Available Sep 28" =
        joinKey "The Dellwood" "WEST-437" "$1,991" "Available Sep 28" ↔
      ("The Dellwood" = "The Dellwood" ∧ "WEST-437" = "WEST-437" ∧
        "$1,991" = "$1,991" ∧ "Available Sep 28" = "Available Sep 28")) ∧
    joinKey "The Dellwood" "WEST-437" "$1,991" "Available Sep 28" ≠
      joinKey "The Dellwood" "WEST-438" "$1,991" "Available Sep 28" := by
  constructor
  · exact c1_dedup_key_iff_fields.2.1 "The Dellwood" "WEST-437" "$1,991" "Available Sep 28"
      "The Dellwood" "WEST-437" "$1,991" "Available Sep 28"
      ⟨"WEST".data, "437".data, by decide, by decide, by decide⟩ (by decide) (by decide)
      ⟨"WEST".data, "437".data, by decide, by decide, by decide⟩ (by decide) (by decide)
  · intro h
    have h2 := (c1_dedup_key_iff_fields.2.2 "The Dellwood" "WEST-437" "$1,991"
      "Available Sep 28" "The Dellwood" "WEST-438" "$1,991" "Available Sep 28" h).2.1
      ⟨rfl, rfl, rfl⟩
    exact absurd h2 (by decide)

/-- C2 counterexample: with a pipeline failing on attempts 1 and 2 and
succeeding on attempt 3, `run()` returns the attempt-3 result and closes the
session twice before the succeeding attempt, but it performs no close after
success — the claimed "exactly once after success" count is 0, not 1. -/
theorem c2_run_retry_counterexample :
    (runScraper attempt3Outcome).2 = .ok 42 ∧
    sessionCloses (beforeAttempt 3 (runScraper attempt3Outcome).1) = 2 ∧
    sessionCloses (fromAttempt 3 (runScraper attempt3Outcome).1) = 0 ∧
    ¬ sessionCloses (fromAttempt 3 (runScraper attempt3Outcome).1) = 1 := by
  decide

/-- C2 (amended): when the pipeline fails on attempts 1 and 2 and succeeds on
attempt 3, `run()` returns the attempt-3 result, the browser session is closed
exactly twice before the succeeding attempt (once per failed attempt), and
`run()` performs no session close after success — the session is left open. -/
theorem c2_run_retry {R : Type} (f : Nat → Except String R) (e1 e2 : String) (r : R)
    (h1 : f 1 = .error e1) (h2 : f 2 = .error e2) (h3 : f 3 = .ok r) :
    (runScraper f).2 = .ok r ∧
    sessionCloses (beforeAttempt 3 (runScraper f).1) = 2 ∧
    sessionCloses (fromAttempt 3 (runScraper f).1) = 0 := by
  have e1' : runScraper f =
      ([.attemptStart 1, .cleanupCall false, .cleanupCall true,
        .attemptStart 2, .cleanupCall false, .cleanupCall true,
        .attemptStart 3, .cleanupCall false], .ok r) := by
    simp [runScraper, runAux, h1, h2, h3]
  rw [e1']
  refine ⟨rfl, ?_, ?_⟩
  · show sessionCloses (beforeAttempt 3
        [.attemptStart 1, .cleanupCall false, .cleanupCall true,
         .attemptStart 2, .cleanupCall false, .cleanupCall true,
         .attemptStart 3, .cleanupCall false]) = 2
    decide
  · show sessionCloses (fromAttempt 3
        [.attemptStart 1, .cleanupCall false, .cleanupCall true,
         .attemptStart 2, .cleanupCall false, .cleanupCall true,
         .attemptStart 3, .cleanupCall false]) = 0
    decide

/-- Witness for C2 (amended) at the concrete three-attempt outcome. -/
theorem c2_run_retry_witness :
    (runScraper attempt3Outcome).2 = .ok 42 ∧
    sessionCloses (beforeAttempt 3 (runScraper attempt3Outcome).1) = 2 ∧
    sessionCloses (fromAttempt 3 (runScraper attempt3Outcome).1) = 0 :=
  c2_run_retry attempt3Outcome "scrape failed" "scrape failed" 42 rfl rfl rfl

/-- C3 counterexample: on a detail page whose second selector throws after the
first selector already yielded a unit, the error is caught but the extraction
returns that unit — not an empty list. -/
theorem c3_caught_error_counterexample :
    detailsCore envPartialFail "The Dellwood" "u" 0 [] =
      ([unitAB1], ["The Dellwood-AB-1-$5-9/28"], some "locator timeout") ∧
    scrapeFloorplanDetails envPartialFail "The Dellwood" "u" 0 [] =
      ([unitAB1], ["The Dellwood-AB-1-$5-9/28"]) ∧
    ([unitAB1] : List ScrapedUnit) ≠ [] := by
  refine ⟨by decide, by decide, by decide⟩

/-- C3 (amended): any error during the extraction of one floorplan is caught
and never propagates — `scrapeFloorplanDetails` always returns the units
accumulated before the error (so a navigation failure yields an empty list),
and phase 2 still visits every remaining floorplan. -/
theorem c3_caught_error_partial :
    (∀ (env : DetailEnv) (fp url : String) (bc : Nat) (seen : List String),
        scrapeFloorplanDetails env fp url bc seen =
          ((detailsCore env fp url bc seen).1, (detailsCore env fp url bc seen).2.1)) ∧
    (∀ (env : ScrapeEnv) (fps : List Floorplan) (seen : List String)
        (acc : List ScrapedUnit),
        (phase2 env fps seen acc).2.2 = fps.map (fun f => f.url)) ∧
    (∀ (env : DetailEnv) (fp url : String) (bc : Nat) (seen : List String)
        (e : String), env.gotoRes = Except.error e →
        scrapeFloorplanDetails env fp url bc seen = ([], seen)) := by
  refine ⟨?_, ?_, ?_⟩
  · intro env fp url bc seen
    unfold scrapeFloorplanDetails
    rcases h : detailsCore env fp url bc seen with ⟨us, sn, err⟩
    rfl
  · intro env fps
    induction fps with
    | nil =>
      intro seen acc
      rfl
    | cons f rest ih =>
      intro seen acc
      unfold phase2
      rcases h1 : scrapeFloorplanDetails (env.detail f.url) f.title f.url
        f.bedroomCount seen with ⟨us, sn⟩
      have h3 := ih sn (acc ++ us)
      rcases h2 : phase2 env rest sn (acc ++ us) with ⟨acc', sn2, urls⟩
      rw [h2] at h3
      simp [h3]
      rw [h2]
      exact h3
  · intro env fp url bc seen e h
    unfold scrapeFloorplanDetails detailsCore
    rw [h]

/-- Witness for C3 (amended): a navigation failure yields the empty result. -/
theorem c3_caught_error_partial_witness :
    scrapeFloorplanDetails envNavFail "F" "u" 0 [] = ([], []) :=
  c3_caught_error_partial.2.2 envNavFail "F" "u" 0 [] "net::ERR_TIMED_OUT" rfl

theorem countKey_cons (a : Apartment) (l : List Apartment) (k : String) :
    countKey (a :: l) k = (if apartmentKey a = k then 1 else 0) + countKey l k := by
  by_cases h : apartmentKey a = k
  · simp [countKey, List.filter_cons, h, Nat.add_comm]
  · simp [countKey, List.filter_cons, h]

theorem finalDedup_count :
    ∀ (l : List Apartment) (seen : List String) (k : String),
      countKey (finalDedup seen l) k ≤ 1 ∧
        (k ∈ seen → countKey (finalDedup seen l) k = 0) := by
  intro l
  induction l with
  | nil =>
    intro seen k
    exact ⟨by simp [finalDedup, countKey], fun _ => by simp [finalDedup, countKey]⟩
  | cons a rest ih =>
    intro seen k
    by_cases hmem : apartmentKey a ∈ seen
    · rw [show finalDedup seen (a :: rest) = finalDedup seen rest from by
        show (if apartmentKey a ∈ seen then finalDedup seen rest
              else a :: finalDedup (apartmentKey a :: seen) rest) = finalDedup seen rest
        rw [if_pos hmem]]
      exact ih seen k
    · rw [show finalDedup seen (a :: rest) =
          a :: finalDedup (apartmentKey a :: seen) rest from by
        show (if apartmentKey a ∈ seen then finalDedup seen rest
              else a :: finalDedup (apartmentKey a :: seen) rest) =
            a :: finalDedup (apartmentKey a :: seen) rest
        rw [if_neg hmem]]
      rw [countKey_cons]
      by_cases hk : apartmentKey a = k
      · have h0 := (ih (apartmentKey a :: seen) k).2 (by rw [hk]; exact List.mem_cons_self k _)
        rw [if_pos hk, h0]
        exact ⟨by omega, fun hks => absurd (hk ▸ hks) hmem⟩
      · rw [if_neg hk]
        refine ⟨by have := (ih (apartmentKey a :: seen) k).1; omega, ?_⟩
        intro hks
        have h0 := (ih (apartmentKey a :: seen) k).2 (List.mem_cons_of_mem _ hks)
        omega

/-- C4: raw unit records with identical floorplan name, unit number, rent text
and availability text are normalized to the same final deduplication key, and
the final normalized output never contains two apartments with any one key —
so at most one survivor per identical raw four-tuple. -/
theorem c4_at_most_one_survivor (y : Nat) (units : List ScrapedUnit)
    (u1 u2 : ScrapedUnit)
    (hfp : u1.floorplanName = u2.floorplanName) (hun : u1.unitNumber = u2.unitNumber)
    (hr : u1.rent = u2.rent) (ha : u1.availabilityDate = u2.availabilityDate) :
    apartmentKey (processOne y u1) = apartmentKey (processOne y u2) ∧
    countKey (processScrapedUnits y units) (apartmentKey (processOne y u1)) ≤ 1 := by
  constructor
  · simp [apartmentKey, processOne, hfp, hun, hr, ha]
  · exact (finalDedup_count (units.map (processOne y)) [] _).1

/-- Witness for C4: a duplicated concrete record. -/
theorem c4_at_most_one_survivor_witness :
    apartmentKey (processOne 2026 unitWest437) = apartmentKey (processOne 2026 unitWest437) ∧
    countKey (processScrapedUnits 2026 [unitWest437, unitWest437])
      (apartmentKey (processOne 2026 unitWest437)) ≤ 1 :=
  c4_at_most_one_survivor 2026 [unitWest437, unitWest437] unitWest437 unitWest437
    rfl rfl rfl rfl

/-- C5: with strategies A, B, C where A and B fail and C succeeds, the
navigation loop attempts exactly A, then B, then C, in that order, each once,
and succeeds; and when every strategy fails, the final strategy's error is
surfaced verbatim. -/
theorem c5_nav_fallback {α : Type} (A B C : α)
    (behaveS behaveF : α → Except String Unit) (eA eB eA2 eB2 eC : String)
    (h1 : behaveS A = .error eA) (h2 : behaveS B = .error eB)
    (h3 : behaveS C = .ok ()) (g1 : behaveF A = .error eA2)
    (g2 : behaveF B = .error eB2) (g3 : behaveF C = .error eC) :
    navLoop behaveS [A, B, C] = ([A, B, C], .ok ()) ∧
    navLoop behaveF [A, B, C] = ([A, B, C], .error eC) := by
  constructor
  · simp [navLoop, h1, h2, h3]
  · simp [navLoop, g1, g2, g3]

/-- Witness for C5 at a concrete behaviour. -/
theorem c5_nav_fallback_witness :
    navLoop navBehaveS [0, 1, 2] = ([0, 1, 2], .ok ()) ∧
    navLoop navBehaveF [0, 1, 2] = ([0, 1, 2], .error "nav fail") :=
  c5_nav_fallback 0 1 2 navBehaveS navBehaveF "nav fail" "nav fail" "nav fail"
    "nav fail" "nav fail" rfl rfl rfl rfl rfl rfl

/-- C6 counterexample: the strategy timeouts are 45000, 60000, 30000 — the
network-idle ceiling is smaller than the full-load ceiling, so the successive
ceilings are not strictly increasing. -/
theorem c6_timeouts_counterexample :
    strategies.map (fun s => s.timeout) = [45000, 60000, 30000] ∧
    ¬ List.Chain' (fun a b : NavStrategy => a.timeout < b.timeout) strategies := by
  constructor
  · rfl
  · intro h
    simp [strategies, List.chain'_cons] at h

/-- C6 (amended): the strategies are ordered DOM-content-loaded, then full
load, then network idle; the first ceiling increase holds (45000 < 60000) but
the final network-idle ceiling (30000) is smaller than its predecessor. -/
theorem c6_timeouts_amended :
    strategies.map (fun s => s.waitUntil) = ["domcontentloaded", "load", "networkidle"] ∧
    strategies.map (fun s => s.timeout) = [45000, 60000, 30000] ∧
    45000 < 60000 ∧ 30000 < 60000 :=
  ⟨rfl, rfl, by omega, by omega⟩

/-- C7 counterexample: a detail page whose containers yield nothing and whose
body text contains an `EAST`-prefixed unit token, a price token and a date
token — but not the literal `WEST-641` — produces no fallback records at
all. -/
theorem c7_fallback_counterexample :
    scrapeFloorplanDetails envEastBody "F" "u" 0 [] = ([], []) ∧
    scanAll (matchUnitAt unitBodyA) "#EAST-100 $1,200 Available Sep 28".data ≠ [] ∧
    scanAll matchPriceAt "#EAST-100 $1,200 Available Sep 28".data ≠ [] ∧
    scanAll matchDateAt "#EAST-100 $1,200 Available Sep 28".data ≠ [] := by
  refine ⟨by decide, by decide, by decide, by decide⟩

/-- C7 (amended): the whole-page-text fallback runs only when the body text
contains the literal `'WEST-641'`; without it the fallback emits nothing, and
with it the fallback emits one record per `WEST`-pattern match, as on the
sample body text. -/
theorem c7_fallback_gated :
    (∀ (fp url : String) (bc : Nat) (txt : String) (seen : List String)
        (acc : List ScrapedUnit) (found : Bool),
        strIncludes txt "WEST-641" = false →
        bodyFallback fp url bc txt seen acc found = (acc, seen, found)) ∧
    bodyFallback "The Dellwood" "u" 0 "#WEST-641 $1,993 Available Sep 28" [] [] false =
      ([unitWest641], ["The Dellwood-WEST-641-$1,993-Sep 28"], true) := by
  constructor
  · intro fp url bc txt seen acc found h
    simp [bodyFallback, h]
  · decide

/-- Witness for C7 (amended): a body text without the literal yields no
fallback records. -/
theorem c7_fallback_gated_witness :
    bodyFallback "F" "u" 0 "no units on this page" [] [] false = ([], [], false) :=
  c7_fallback_gated.1 "F" "u" 0 "no units on this page" [] [] false rfl

theorem qualifyCard_some {card : Card} {f : Floorplan} (h : qualifyCard card = some f) :
    f.bedroomCount ≤ 1 ∧
    ∃ t, card.textRes = Except.ok (some t) ∧ strIncludes t "Starting at $" = true := by
  rcases card with ⟨sc, tres, xres⟩
  cases sc with
  | false => simp [qualifyCard] at h
  | true =>
    cases tres with
    | error e => simp [qualifyCard] at h
    | ok o =>
      cases o with
      | none => simp [qualifyCard] at h
      | some title =>
        by_cases ht : title = ""
        · simp [qualifyCard, ht] at h
        · by_cases hbc : extractBedroomCount title > 1
          · simp [qualifyCard, ht, hbc] at h
          · cases xres with
            | error e => simp [qualifyCard, ht, hbc] at h
            | ok o2 =>
              cases o2 with
              | none => simp [qualifyCard, ht, hbc] at h
              | some txt =>
                by_cases hm : txt ≠ "" ∧ strIncludes txt "Starting at $" = true
                · obtain ⟨ft, fu, fb⟩ := f
                  simp [qualifyCard, ht, hbc, hm.1, hm.2] at h
                  obtain ⟨h1, h2, h3⟩ := h
                  refine ⟨?_, txt, rfl, hm.2⟩
                  show fb ≤ 1
                  omega
                · simp [qualifyCard, ht, hbc, hm] at h

/-- C8: every floorplan candidate the Discoverer emits has at most one bedroom,
and it comes from a card whose text contained the `'Starting at $'` price
marker. -/
theorem c8_discoverer_invariant (cards : List Card) (f : Floorplan)
    (h : f ∈ discoverFloorplans cards) :
    f.bedroomCount ≤ 1 ∧
    ∃ card ∈ cards, qualifyCard card = some f ∧
      ∃ t, card.textRes = Except.ok (some t) ∧ strIncludes t "Starting at $" = true := by
  obtain ⟨card, hcard, hq⟩ := List.mem_filterMap.1 h
  obtain ⟨hbc, t, ht, hm⟩ := qualifyCard_some hq
  exact ⟨hbc, card, hcard, hq, t, ht, hm⟩

/-- Witness for C8 at a concrete one-bedroom card. -/
theorem c8_discoverer_invariant_witness :
    floorplanOneBR.bedroomCount ≤ 1 ∧
    ∃ card ∈ [cardOneBR], qualifyCard card = some floorplanOneBR ∧
      ∃ t, card.textRes = Except.ok (some t) ∧ strIncludes t "Starting at $" = true :=
  c8_discoverer_invariant [cardOneBR] floorplanOneBR (by decide)

/-- C10: calling `scrapeApartments` with no browser context throws
`'Browser not initialized. Call initialize() first.'` before any navigation
and produces no records. -/
theorem c10_not_initialized (y : Nat) (env : ScrapeEnv) :
    scrapeApartments y none env =
      ([], Except.error "Browser not initialized. Call initialize() first.") := rfl

theorem digitCh_isDigit (n : Nat) (h : n < 10) : (digitCh n).isDigit = true := by
  interval_cases n <;> decide

theorem digitVal_digitCh (n : Nat) (h : n < 10) : digitVal (digitCh n) = n := by
  interval_cases n <;> decide

theorem foldDigits_concat (A : List Char) (c : Char) :
    foldDigits (A ++ [c]) = foldDigits A * 10 + digitVal c := by
  unfold foldDigits
  rw [List.foldl_append]
  rfl

theorem decDigitsAux_spec :
    ∀ (fuel n : Nat), n < fuel →
      (∀ c ∈ decDigitsAux fuel n, c.isDigit = true) ∧ decDigitsAux fuel n ≠ [] ∧
        foldDigits (decDigitsAux fuel n) = n := by
  intro fuel
  induction fuel with
  | zero => intro n h; omega
  | succ m ih =>
    intro n h
    by_cases h10 : n < 10
    · rw [show decDigitsAux (m + 1) n = [digitCh n] from by
        show (if n < 10 then [digitCh n]
              else decDigitsAux m (n / 10) ++ [digitCh (n % 10)]) = [digitCh n]
        rw [if_pos h10]]
      refine ⟨?_, by simp, ?_⟩
      · intro c hc
        rw [List.mem_singleton] at hc
        rw [hc]
        exact digitCh_isDigit n h10
      · show 0 * 10 + digitVal (digitCh n) = n
        rw [digitVal_digitCh n h10]
        omega
    · have hdiv : n / 10 < m := by
        have h1 := Nat.div_lt_self (show 0 < n by omega) (show 1 < 10 by omega)
        omega
      obtain ⟨hd, hne, hfold⟩ := ih (n / 10) hdiv
      rw [show decDigitsAux (m + 1) n =
          decDigitsAux m (n / 10) ++ [digitCh (n % 10)] from by
        show (if n < 10 then [digitCh n]
              else decDigitsAux m (n / 10) ++ [digitCh (n % 10)]) =
            decDigitsAux m (n / 10) ++ [digitCh (n % 10)]
        rw [if_neg h10]]
      have hmod : n % 10 < 10 := Nat.mod_lt n (by omega)
      refine ⟨?_, by simp, ?_⟩
      · intro c hc
        rcases List.mem_append.1 hc with h1 | h1
        · exact hd c h1
        · rw [List.mem_singleton] at h1
          rw [h1]
          exact digitCh_isDigit _ hmod
      · rw [foldDigits_concat, hfold, digitVal_digitCh _ hmod]
        omega

theorem decDigits_spec (y : Nat) :
    (∀ c ∈ decDigits y, c.isDigit = true) ∧ decDigits y ≠ [] ∧
      foldDigits (decDigits y) = y :=
  decDigitsAux_spec (y + 1) y (Nat.lt_succ_self y)

theorem takeWhile_all {p : Char → Bool} :
    ∀ {l : List Char}, (∀ c ∈ l, p c = true) → l.takeWhile p = l := by
  intro l
  induction l with
  | nil => intro _; rfl
  | cons c cs ih =>
    intro h
    rw [List.takeWhile_cons, h c (List.mem_cons_self c cs)]
    simp [ih fun x hx => h x (List.mem_cons_of_mem c hx)]

theorem dropWhile_all {p : Char → Bool} :
    ∀ {l : List Char}, (∀ c ∈ l, p c = true) → l.dropWhile p = [] := by
  intro l
  induction l with
  | nil => intro _; rfl
  | cons c cs ih =>
    intro h
    rw [List.dropWhile_cons, h c (List.mem_cons_self c cs)]
    simp [ih fun x hx => h x (List.mem_cons_of_mem c hx)]

theorem jsParse_sep28 (y : Nat) :
    jsParseDateString
      (['S', 'e', 'p'] ++ ' ' :: (['2', '8'] ++ ',' :: ' ' :: decDigits y)) =
      some ⟨y, 9, 28⟩ := by
  obtain ⟨hdig, hne, hfold⟩ := decDigits_spec y
  unfold jsParseDateString
  have t1 : ((['S', 'e', 'p'] ++ ' ' :: (['2', '8'] ++ ',' :: ' ' :: decDigits y)).takeWhile
      fun c => decide (c ≠ ' ')) = ['S', 'e', 'p'] := rfl
  have d1 : ((['S', 'e', 'p'] ++ ' ' :: (['2', '8'] ++ ',' :: ' ' :: decDigits y)).dropWhile
      fun c => decide (c ≠ ' ')) = ' ' :: ('2' :: '8' :: ',' :: ' ' :: decDigits y) := rfl
  rw [t1, d1]
  try dsimp only
  rw [if_pos rfl]
  have t2 : (('2' :: '8' :: ',' :: ' ' :: decDigits y).takeWhile
      fun c => decide (c ≠ ',')) = ['2', '8'] := rfl
  have d2 : (('2' :: '8' :: ',' :: ' ' :: decDigits y).dropWhile
      fun c => decide (c ≠ ',')) = ',' :: ' ' :: decDigits y := rfl
  rw [t2, d2]
  try dsimp only
  rw [if_pos ⟨rfl, rfl⟩]
  rw [takeWhile_all hdig, dropWhile_all hdig]
  rw [if_pos ?hc]
  case hc =>
    refine ⟨rfl, ?_, rfl, by decide⟩
    intro hie
    exact hne (by simpa using hie)
  try dsimp only
  rw [show monthFromName ['S', 'e', 'p'] = some 9 from rfl]
  try dsimp only
  rw [hfold]
  rw [if_pos ?hd]
  case hd =>
    constructor
    · decide
    · show foldDigits ['2', '8'] ≤ daysInMonth 9 y
      rw [show daysInMonth 9 y = 30 from rfl]
      decide
  rfl


/-- C9: `parseAvailability("Available Sep 28")` yields September 28 of the
current year, `parseAvailability("9/28")` yields the same date, and
`parseAvailability("not a date")` yields `null` rather than raising. -/
theorem c9_parse_availability (y : Nat) :
    parseAvailabilityDate y "Available Sep 28" = some ⟨y, 9, 28⟩ ∧
    parseAvailabilityDate y "9/28" = some ⟨y, 9, 28⟩ ∧
    parseAvailabilityDate y "not a date" = none := by
  refine ⟨?_, rfl, rfl⟩
  show jsParseDateString
      (['S', 'e', 'p'] ++ ' ' :: (['2', '8'] ++ ',' :: ' ' :: decDigits y)) =
    some ⟨y, 9, 28⟩
  exact jsParse_sep28 y

end AptCrawler
